import Mathlib

/-!
# drillmeasure — verification of the drill execution engine

A shallow embedding of the repository's core (`internal/runner/runner.go`):
the command-execution primitive `executeCommand`, the health-check polling
loop `waitForHealthCheck`, and the top-level drill sequence `Run`, together
with the SHA-256 content hashing used for stdout/stderr digests
(`hashString`).

Modelling choices:
* Timestamps are `Nat` where `0` plays the role of Go's zero `time.Time`
  (`IsZero`); durations are `Int` (Go's `time.Duration` subtraction).
* The outside world is an `Env`: a monotone clock stream (each `time.Now()`
  call consumes one reading), a list of raw outcomes for the shell commands
  executed in order, and the points at which the run-scoped cancellation
  context fires (during the post-disrupt delay, and at each between-attempt
  sleep of the polling loop).
* The unbounded polling loop takes a fuel parameter; fuel exhaustion (or an
  exhausted outcome list) yields `none`, so `some` results are exactly the
  terminating ("completed") executions.
* `Scenario` carries the three duration fields as the result of their
  `Get*Duration` parse (`Except String Int`), since duration-literal parsing
  belongs to the external configuration collaborator.
-/

namespace DrillMeasure

/-! ## SHA-256 (crypto/sha256 + encoding/hex), byte-level over `Nat` -/

def w32 : Nat := 4294967296

/-- 32-bit right rotation. -/
def rot32 (n x : Nat) : Nat := ((x >>> n) ||| (x <<< (32 - n))) % w32

def smallSigma0 (x : Nat) : Nat := (rot32 7 x) ^^^ (rot32 18 x) ^^^ (x >>> 3)

def smallSigma1 (x : Nat) : Nat := (rot32 17 x) ^^^ (rot32 19 x) ^^^ (x >>> 10)

def bigSigma0 (x : Nat) : Nat := (rot32 2 x) ^^^ (rot32 13 x) ^^^ (rot32 22 x)

def bigSigma1 (x : Nat) : Nat := (rot32 6 x) ^^^ (rot32 11 x) ^^^ (rot32 25 x)

def chooseF (x y z : Nat) : Nat := (x &&& y) ^^^ ((x ^^^ 4294967295) &&& z)

def majF (x y z : Nat) : Nat := (x &&& y) ^^^ (x &&& z) ^^^ (y &&& z)

def sha256K : List Nat :=
  [1116352408, 1899447441, 3049323471, 3921009573,
   961987163, 1508970993, 2453635748, 2870763221,
   3624381080, 310598401, 607225278, 1426881987,
   1925078388, 2162078206, 2614888103, 3248222580,
   3835390401, 4022224774, 264347078, 604807628,
   770255983, 1249150122, 1555081692, 1996064986,
   2554220882, 2821834349, 2952996808, 3210313671,
   3336571891, 3584528711, 113926993, 338241895,
   666307205, 773529912, 1294757372, 1396182291,
   1695183700, 1986661051, 2177026350, 2456956037,
   2730485921, 2820302411, 3259730800, 3345764771,
   3516065817, 3600352804, 4094571909, 275423344,
   430227734, 506948616, 659060556, 883997877,
   958139571, 1322822218, 1537002063, 1747873779,
   1955562222, 2024104815, 2227730452, 2361852424,
   2428436474, 2756734187, 3204031479, 3329325298]

/-- Running hash state: the eight 32-bit working variables. -/
structure Hash8 where
  a : Nat
  b : Nat
  c : Nat
  d : Nat
  e : Nat
  f : Nat
  g : Nat
  h : Nat
deriving Repr, DecidableEq

def initH : Hash8 :=
  ⟨1779033703, 3144134277, 1013904242, 2773480762,
   1359893119, 2600822924, 528734635, 1541459225⟩

/-- The length suffix of the padding: the bit length as 8 big-endian bytes. -/
def lenBytesBE (n : Nat) : List Nat :=
  (List.range 8).map (fun i => (n >>> ((7 - i) * 8)) % 256)

/-- SHA-256 padding: a 0x80 byte, zeros to 56 mod 64, then the bit length. -/
def padMessage (msg : List Nat) : List Nat :=
  msg ++ [0x80] ++ List.replicate ((119 - msg.length % 64) % 64) 0
      ++ lenBytesBE (msg.length * 8)

/-- Big-endian 4-byte groups to 32-bit words. -/
def bytesToWords : List Nat → List Nat
  | a :: b :: c :: d :: rest =>
      (((a * 256 + b) * 256 + c) * 256 + d) :: bytesToWords rest
  | _ => []

/-- Extend the 16-word block `n` times by the message-schedule recurrence. -/
def schedule (ws : List Nat) : Nat → List Nat
  | 0 => ws
  | n + 1 =>
      let prev := schedule ws n
      prev ++ [(smallSigma1 (prev.getD (prev.length - 2) 0)
          + prev.getD (prev.length - 7) 0
          + smallSigma0 (prev.getD (prev.length - 15) 0)
          + prev.getD (prev.length - 16) 0) % w32]

/-- One compression round for a (round constant, schedule word) pair. -/
def compressRound (st : Hash8) (kw : Nat × Nat) : Hash8 :=
  let t1 := (st.h + bigSigma1 st.e + chooseF st.e st.f st.g + kw.1 + kw.2) % w32
  let t2 := (bigSigma0 st.a + majF st.a st.b st.c) % w32
  ⟨(t1 + t2) % w32, st.a, st.b, st.c, (st.d + t1) % w32, st.e, st.f, st.g⟩

/-- Process one padded 64-byte block. -/
def processBlock (st : Hash8) (block : List Nat) : Hash8 :=
  let ws := schedule (bytesToWords block) 48
  let fin := (sha256K.zip ws).foldl compressRound st
  ⟨(st.a + fin.a) % w32, (st.b + fin.b) % w32, (st.c + fin.c) % w32,
   (st.d + fin.d) % w32, (st.e + fin.e) % w32, (st.f + fin.f) % w32,
   (st.g + fin.g) % w32, (st.h + fin.h) % w32⟩

/-- Split into 64-byte blocks; the fuel bounds the number of blocks. -/
def chunks64Aux : Nat → List Nat → List (List Nat)
  | _, [] => []
  | 0, _ :: _ => []
  | n + 1, x :: rest => (x :: rest.take 63) :: chunks64Aux n (rest.drop 63)

/-- Split a padded message into 64-byte blocks. -/
def chunks64 (l : List Nat) : List (List Nat) :=
  chunks64Aux l.length l

def wordBytesBE (w : Nat) : List Nat :=
  [(w >>> 24) % 256, (w >>> 16) % 256, (w >>> 8) % 256, w % 256]

/-- SHA-256 digest of a byte list, as 32 bytes. -/
def sha256Bytes (msg : List Nat) : List Nat :=
  let st := (chunks64 (padMessage msg)).foldl processBlock initH
  wordBytesBE st.a ++ wordBytesBE st.b ++ wordBytesBE st.c ++ wordBytesBE st.d
    ++ wordBytesBE st.e ++ wordBytesBE st.f ++ wordBytesBE st.g ++ wordBytesBE st.h

def hexDigit (n : Nat) : Char :=
  "0123456789abcdef".toList.getD n '0'

def byteHex (b : Nat) : String :=
  String.mk [hexDigit (b / 16), hexDigit (b % 16)]

/-- Lowercase hex encoding of a byte list (encoding/hex.EncodeToString). -/
def bytesHex (bs : List Nat) : String :=
  String.join (bs.map byteHex)

/-- UTF-8 encoding of one character (Go's []byte(string) byte content). -/
def utf8EncodeChar (c : Char) : List Nat :=
  let n := c.toNat
  if n < 0x80 then [n]
  else if n < 0x800 then
    [0xC0 ||| (n >>> 6), 0x80 ||| (n &&& 0x3F)]
  else if n < 0x10000 then
    [0xE0 ||| (n >>> 12), 0x80 ||| ((n >>> 6) &&& 0x3F), 0x80 ||| (n &&& 0x3F)]
  else
    [0xF0 ||| (n >>> 18), 0x80 ||| ((n >>> 12) &&& 0x3F),
     0x80 ||| ((n >>> 6) &&& 0x3F), 0x80 ||| (n &&& 0x3F)]

def utf8Bytes (s : String) : List Nat :=
  s.toList.foldr (fun c acc => utf8EncodeChar c ++ acc) []

/-- `hashString` (runner.go): SHA-256 of the string's bytes, hex encoded. -/
def hashString (s : String) : String :=
  bytesHex (sha256Bytes (utf8Bytes s))

/-! ## Data model (config.go / runner.go) -/

/-- `RPOCheck` (config.go): commands for RPO measurement; empty string means
the field is absent. -/
structure RPOCheck where
  preSnapshot : String
  postSnapshot : String
  verifyCommand : String
deriving Repr, DecidableEq

/-- `Factors` (config.go): commands to collect influencing factors/logs. -/
structure Factors where
  logCommands : List String
deriving Repr, DecidableEq

/-- `Scenario` (config.go). The three duration-literal fields are carried as
the result of their `GetRTOTargetDuration` / `GetRPOTargetDuration` /
`GetPostDisruptDelay` parse (duration-string parsing belongs to the external
configuration collaborator): `Except.error` is a parse failure, `Except.ok`
the parsed `time.Duration` value. -/
structure Scenario where
  name : String
  description : String
  rtoTarget : Except String Int
  rpoTarget : Except String Int
  disruptCommand : String
  recoverCommand : String
  healthCheckCommand : String
  postDisruptDelay : Except String Int
  rpoCheck : Option RPOCheck
  factors : Option Factors
deriving Repr

/-- `CommandResult` (runner.go). -/
structure CommandResult where
  command : String
  exitCode : Int
  stdout : String
  stderr : String
  duration : Int
  timestamp : Nat
  stdoutHash : String
  stderrHash : String
deriving Repr, DecidableEq

/-- `DrillResult` (runner.go). Timestamps are `Nat`, with `0` playing the
role of Go's zero `time.Time` (`IsZero`). -/
structure DrillResult where
  scenario : Scenario
  startTime : Nat
  endTime : Nat
  preSnapshot : Option CommandResult
  disrupt : Option CommandResult
  recover : Option CommandResult
  postDisruptDelay : Int
  rtoStartTime : Nat
  rtoEndTime : Nat
  rta : Int
  rtoTarget : Int
  rtoPassed : Bool
  postSnapshot : Option CommandResult
  rpoVerify : Option CommandResult
  rpoTarget : Int
  rpoPassed : Bool
  healthCheckAttempts : List CommandResult
  factorLogs : List CommandResult
  errors : List String
deriving Repr

/-- The Go zero value of `DrillResult` with `Scenario` and `Errors: []`
filled in, as built at the top of `Run`. -/
def emptyResult (scen : Scenario) : DrillResult :=
  { scenario := scen, startTime := 0, endTime := 0, preSnapshot := none,
    disrupt := none, recover := none, postDisruptDelay := 0,
    rtoStartTime := 0, rtoEndTime := 0, rta := 0, rtoTarget := 0,
    rtoPassed := false, postSnapshot := none, rpoVerify := none,
    rpoTarget := 0, rpoPassed := false, healthCheckAttempts := [],
    factorLogs := [], errors := [] }

/-! ## Environment: the outside world seen by one run -/

/-- Classification of the `error` returned by `cmd.Run()`: none (exit 0),
an `*exec.ExitError` carrying the process's exit code, or any other error
(timeout kill, cancellation, launch failure) with its `Error()` text. -/
inductive ExecErr where
  | noError : ExecErr
  | exitError (code : Int) : ExecErr
  | other (msg : String) : ExecErr
deriving Repr, DecidableEq

/-- The value of `ctx.Err()` observed after `cmd.Run()` fails. -/
inductive CtxErr where
  | noErr : CtxErr
  | deadlineExceeded : CtxErr
  | canceled : CtxErr
deriving Repr, DecidableEq

/-- Raw outcome of one shell-command execution, as delivered by the
operating system: captured stream contents plus the error classification. -/
structure ExecContent where
  stdout : String
  stderr : String
  err : ExecErr
  ctxErr : CtxErr
deriving Repr, DecidableEq

/-- The nondeterministic outside world of one run: a clock stream (the i-th
`time.Now()` call returns `clock i`), the raw outcomes of the shell commands
in execution order, whether the run-scoped cancellation context fires during
the post-disrupt delay, and whether it fires at the k-th between-attempt
sleep of the polling loop. -/
structure Env where
  clock : Nat → Nat
  execs : List ExecContent
  cancelDelay : Bool
  cancels : Nat → Bool

/-- Clock readings never decrease. -/
def Env.Mono (env : Env) : Prop := ∀ i j, i ≤ j → env.clock i ≤ env.clock j

/-- Clock readings are never the zero time. -/
def Env.Pos (env : Env) : Prop := ∀ i, 0 < env.clock i

/-- Mutable world state threaded through a run: how many clock readings were
consumed, the remaining command outcomes, and how many polling-loop sleep
points were passed. -/
structure World where
  tick : Nat
  execs : List ExecContent
  sleeps : Nat
deriving Repr, DecidableEq

/-- One `time.Now()` call. -/
def drawNow (env : Env) (w : World) : Nat × World :=
  (env.clock w.tick, { w with tick := w.tick + 1 })

/-! ## executeCommand (runner.go lines 187–235) -/

/-- Builds the `CommandResult` of `executeCommand` from the raw outcome and
the three `time.Now()` readings it consumes (`result.Timestamp`, `start`,
and the reading inside `time.Since(start)`). Hashes are computed over the
captured streams before the error branches may rewrite `Stderr`. -/
def mkCommandResult (command : String) (ec : ExecContent)
    (ts startT endT : Nat) : CommandResult :=
  let stdoutHash := hashString ec.stdout
  let stderrHash := hashString ec.stderr
  let codeStderr : Int × String :=
    match ec.err with
    | .noError => (0, ec.stderr)
    | .exitError code => (code, ec.stderr)
    | .other msg =>
      match ec.ctxErr with
      | .deadlineExceeded =>
          (-1, if ec.stderr = "" then "command timed out: " ++ msg else ec.stderr)
      | .canceled =>
          (-1, if ec.stderr = "" then "command canceled: " ++ msg else ec.stderr)
      | .noErr =>
          (-1, if ec.stderr = "" then msg else ec.stderr)
  { command := command, exitCode := codeStderr.1, stdout := ec.stdout,
    stderr := codeStderr.2, duration := (endT : Int) - (startT : Int),
    timestamp := ts, stdoutHash := stdoutHash, stderrHash := stderrHash }

/-- `executeCommand`: consumes the next raw outcome and three clock
readings; `none` when the environment's outcome list is exhausted. -/
def executeCommand (command : String) (env : Env) (w : World) :
    Option (CommandResult × World) :=
  match w.execs with
  | [] => none
  | ec :: rest =>
      some (mkCommandResult command ec (env.clock w.tick)
              (env.clock (w.tick + 1)) (env.clock (w.tick + 2)),
            { w with tick := w.tick + 3, execs := rest })

/-! ## waitForHealthCheck (runner.go lines 240–315) -/

/-- Outcome of one iteration of the polling loop's `for` body: the loop
returned, goes on to the next iteration, or the environment ran dry. -/
inductive StepOut where
  | done (passed : Bool) (res : DrillResult) (w : World) : StepOut
  | next (rtaStarted : Bool) (res : DrillResult) (w : World) : StepOut
  | stuck : StepOut

/-- One iteration of the polling loop body: execute the health check, append
the attempt, then branch exactly as runner.go lines 255–313. -/
def waitStep (env : Env) (healthCheckCommand : String) (rtoTarget : Int)
    (rtaStarted : Bool) (res : DrillResult) (w : World) : StepOut :=
  match executeCommand healthCheckCommand env w with
  | none => .stuck
  | some (attempt, w) =>
    let res := { res with
      healthCheckAttempts := res.healthCheckAttempts ++ [attempt] }
    if attempt.exitCode = 0 then
      if rtaStarted then
        let (n, w) := drawNow env w
        let rta : Int := (n : Int) - (res.rtoStartTime : Int)
        .done (decide (rta ≤ rtoTarget))
          { res with rtoEndTime := n, rta := rta,
                     rtoPassed := decide (rta ≤ rtoTarget) } w
      else
        .done true { res with rtoPassed := true } w
    else
      let pr := if !rtaStarted
        then ({ res with rtoStartTime := attempt.timestamp }, true)
        else (res, rtaStarted)
      let res := pr.1
      let rtaStarted := pr.2
      let (nowv, w) := drawNow env w
      let deadline : Int := (res.rtoStartTime : Int) + rtoTarget
      if (nowv : Int) > deadline then
        .done false
          { res with rta := (nowv : Int) - (res.rtoStartTime : Int),
                     rtoEndTime := nowv, rtoPassed := false } w
      else
        let k := w.sleeps
        let w := { w with sleeps := w.sleeps + 1 }
        if env.cancels k then
          if rtaStarted then
            let (n1, w) := drawNow env w
            let rta : Int := (n1 : Int) - (res.rtoStartTime : Int)
            let (n2, w) := drawNow env w
            .done false
              { res with rta := rta, rtoEndTime := n2,
                         rtoPassed := decide (rta ≤ rtoTarget) } w
          else
            .done false res w
        else
          .next rtaStarted res w

/-- The polling loop: iterate `waitStep` until it returns, with fuel
bounding the number of iterations (the Go loop is unbounded). -/
def waitLoop (env : Env) (healthCheckCommand : String) (rtoTarget : Int) :
    Nat → Bool → DrillResult → World → Option (Bool × DrillResult × World)
  | 0, _, _, _ => none
  | fuel + 1, rtaStarted, res, w =>
    match waitStep env healthCheckCommand rtoTarget rtaStarted res w with
    | .stuck => none
    | .done passed res w => some (passed, res, w)
    | .next rtaStarted res w =>
        waitLoop env healthCheckCommand rtoTarget fuel rtaStarted res w

/-- `waitForHealthCheck`: enter the loop with
`rtaStarted := !result.RTOStartTime.IsZero()`. -/
def waitForHealthCheck (env : Env) (healthCheckCommand : String)
    (rtoTarget : Int) (fuel : Nat) (res : DrillResult) (w : World) :
    Option (Bool × DrillResult × World) :=
  waitLoop env healthCheckCommand rtoTarget fuel
    (decide (res.rtoStartTime ≠ 0)) res w

/-! ## Run (runner.go lines 66–184) -/

def preSnapErr (code : Int) : String :=
  "pre_snapshot command failed with exit code " ++ toString code

def disruptErr (code : Int) : String :=
  "disrupt_command failed with exit code " ++ toString code

def recoverErr (code : Int) : String :=
  "recover_command failed with exit code " ++ toString code

def postSnapErr (code : Int) : String :=
  "post_snapshot command failed with exit code " ++ toString code

def rpoVerifyErr (code : Int) : String :=
  "rpo verify_command failed with exit code " ++ toString code

def rpoNoVerifyErr : String :=
  "RPO target specified but no verify_command provided"

/-- Step 1: pre-snapshot, when an RPO check with a pre-snapshot command is
configured (runner.go lines 93–98). -/
def stepPre (env : Env) (scen : Scenario) (res : DrillResult) (w : World) :
    Option (DrillResult × World) :=
  match scen.rpoCheck with
  | some rpo =>
    if rpo.preSnapshot ≠ "" then
      match executeCommand rpo.preSnapshot env w with
      | none => none
      | some (c, w) =>
        let res := { res with preSnapshot := some c }
        let res := if c.exitCode ≠ 0
          then { res with errors := res.errors ++ [preSnapErr c.exitCode] }
          else res
        some (res, w)
    else some (res, w)
  | none => some (res, w)

/-- Step 2: disrupt, always executed (runner.go lines 101–104). -/
def stepDisrupt (env : Env) (scen : Scenario) (res : DrillResult)
    (w : World) : Option (DrillResult × World) :=
  match executeCommand scen.disruptCommand env w with
  | none => none
  | some (c, w) =>
    let res := { res with disrupt := some c }
    let res := if c.exitCode ≠ 0
      then { res with errors := res.errors ++ [disruptErr c.exitCode] }
      else res
    some (res, w)

/-- Step 4: the down-detection probe right after the disruption
(runner.go lines 118–125). -/
def stepDown (env : Env) (cmd : String) (res : DrillResult) (w : World) :
    Option (DrillResult × World) :=
  match executeCommand cmd env w with
  | none => none
  | some (c, w) =>
    let res := { res with
      healthCheckAttempts := res.healthCheckAttempts ++ [c] }
    let res := if c.exitCode ≠ 0
      then { res with rtoStartTime := c.timestamp } else res
    some (res, w)

/-- Step 5: recover, when a recover command is configured
(runner.go lines 128–136). -/
def stepRecover (env : Env) (scen : Scenario) (res : DrillResult)
    (w : World) : Option (DrillResult × World) :=
  if scen.recoverCommand ≠ "" then
    match executeCommand scen.recoverCommand env w with
    | none => none
    | some (c, w) =>
      let res := { res with recover := some c }
      let res := if c.exitCode ≠ 0
        then { res with errors := res.errors ++ [recoverErr c.exitCode] }
        else res
      some (res, w)
  else some (res, w)

/-- Step 6b: post-snapshot, when configured (runner.go lines 144–149). -/
def stepPost (env : Env) (scen : Scenario) (res : DrillResult) (w : World) :
    Option (DrillResult × World) :=
  match scen.rpoCheck with
  | some rpo =>
    if rpo.postSnapshot ≠ "" then
      match executeCommand rpo.postSnapshot env w with
      | none => none
      | some (c, w) =>
        let res := { res with postSnapshot := some c }
        let res := if c.exitCode ≠ 0
          then { res with errors := res.errors ++ [postSnapErr c.exitCode] }
          else res
        some (res, w)
    else some (res, w)
  | none => some (res, w)

/-- Step 7: RPO verification (runner.go lines 152–163). -/
def stepRPO (env : Env) (scen : Scenario) (rpoTarget : Int)
    (res : DrillResult) (w : World) : Option (DrillResult × World) :=
  match scen.rpoCheck with
  | some rpo =>
    if rpo.verifyCommand ≠ "" then
      match executeCommand rpo.verifyCommand env w with
      | none => none
      | some (c, w) =>
        let res := { res with rpoVerify := some c }
        let res := if c.exitCode = 0
          then { res with rpoPassed := true }
          else { res with rpoPassed := false,
                          errors := res.errors ++ [rpoVerifyErr c.exitCode] }
        some (res, w)
    else if rpoTarget > 0 then
      some ({ res with errors := res.errors ++ [rpoNoVerifyErr] }, w)
    else some (res, w)
  | none =>
    if rpoTarget > 0 then
      some ({ res with errors := res.errors ++ [rpoNoVerifyErr] }, w)
    else some (res, w)

/-- Step 8 inner loop: run the factor log commands in listed order,
appending each result regardless of exit code (runner.go lines 167–170). -/
def runLogs (env : Env) : List String → DrillResult → World →
    Option (DrillResult × World)
  | [], res, w => some (res, w)
  | cmd :: rest, res, w =>
    match executeCommand cmd env w with
    | none => none
    | some (c, w) =>
        runLogs env rest { res with factorLogs := res.factorLogs ++ [c] } w

/-- Step 8: factor log collection, when configured
(runner.go lines 166–171). -/
def stepFactors (env : Env) (scen : Scenario) (res : DrillResult)
    (w : World) : Option (DrillResult × World) :=
  match scen.factors with
  | some f =>
    if f.logCommands.length > 0 then runLogs env f.logCommands res w
    else some (res, w)
  | none => some (res, w)

/-- Final bookkeeping (runner.go lines 173–181): set the end timestamp and,
when the loop never set `RTOEndTime`, default it and recompute the verdict
when RTA had started. -/
def finalize (env : Env) (res : DrillResult) (w : World) :
    DrillResult × World :=
  let (endT, w) := drawNow env w
  let res := { res with endTime := endT }
  if res.rtoEndTime = 0 then
    let res := { res with rtoEndTime := res.endTime }
    if res.rtoStartTime ≠ 0 then
      let rta : Int := (res.rtoEndTime : Int) - (res.rtoStartTime : Int)
      ({ res with rta := rta, rtoPassed := decide (rta ≤ res.rtoTarget) }, w)
    else (res, w)
  else (res, w)

/-- What `Run` hands back to its caller: a fatal parse error (`result` is
nil), the partial result together with `ctx.Err()` when cancellation fires
during the post-disrupt delay, or the completed result with a nil error. -/
inductive RunOutput where
  | parseError (msg : String) : RunOutput
  | cancelled (res : DrillResult) : RunOutput
  | completed (res : DrillResult) : RunOutput

/-- Steps 1 through 10 of `Run`, after the three durations parsed. -/
def runSteps (env : Env) (scen : Scenario) (fuel : Nat) (rtoTarget : Int)
    (rpoTarget : Int) (postDisruptDelay : Int) (res : DrillResult)
    (w : World) : Option RunOutput :=
  match stepPre env scen res w with
  | none => none
  | some (res, w) =>
  match stepDisrupt env scen res w with
  | none => none
  | some (res, w) =>
  if postDisruptDelay > 0 ∧ env.cancelDelay then some (.cancelled res)
  else
  match stepDown env scen.healthCheckCommand res w with
  | none => none
  | some (res, w) =>
  match stepRecover env scen res w with
  | none => none
  | some (res, w) =>
  match waitForHealthCheck env scen.healthCheckCommand rtoTarget fuel res w with
  | none => none
  | some (_, res, w) =>
  match stepPost env scen res w with
  | none => none
  | some (res, w) =>
  match stepRPO env scen rpoTarget res w with
  | none => none
  | some (res, w) =>
  match stepFactors env scen res w with
  | none => none
  | some (res, w) =>
  some (.completed (finalize env res w).1)

/-- `Run`: build the initial result, parse the three durations, then walk
the step sequence. -/
def Run (env : Env) (scen : Scenario) (fuel : Nat) : Option RunOutput :=
  let w : World := ⟨0, env.execs, 0⟩
  let (st, w) := drawNow env w
  match scen.rtoTarget with
  | .error e => some (.parseError ("invalid RTO target: " ++ e))
  | .ok rtoTarget =>
  match scen.rpoTarget with
  | .error e => some (.parseError ("invalid RPO target: " ++ e))
  | .ok rpoTarget =>
  match scen.postDisruptDelay with
  | .error e => some (.parseError ("invalid post_disrupt_delay: " ++ e))
  | .ok postDisruptDelay =>
  let res0 := emptyResult scen
  let res := { res0 with
      startTime := st, rtoTarget := rtoTarget,
      rpoTarget := rpoTarget, postDisruptDelay := postDisruptDelay }
  runSteps env scen fuel rtoTarget rpoTarget postDisruptDelay res w

/-- Projects the result of a completed (error-free) run. -/
def completedOf (o : Option RunOutput) : Option DrillResult :=
  match o with
  | some (.completed res) => some res
  | _ => none

/-- Projects the partial result returned alongside the cancellation error. -/
def cancelledOf (o : Option RunOutput) : Option DrillResult :=
  match o with
  | some (.cancelled res) => some res
  | _ => none

/-! ## Anatomy of executeCommand -/

theorem executeCommand_eq {cmd : String} {env : Env} {w : World}
    {out : CommandResult × World}
    (h : executeCommand cmd env w = some out) :
    ∃ ec rest, w.execs = ec :: rest ∧
      out = (mkCommandResult cmd ec (env.clock w.tick)
               (env.clock (w.tick + 1)) (env.clock (w.tick + 2)),
             { w with tick := w.tick + 3, execs := rest }) := by
  unfold executeCommand at h
  split at h
  · exact Option.noConfusion h
  · next ec rest heq =>
      exact ⟨ec, rest, heq, (Option.some.injEq _ _ ▸ h).symm⟩

theorem executeCommand_world {cmd : String} {env : Env} {w : World}
    {c : CommandResult} {w' : World}
    (h : executeCommand cmd env w = some (c, w')) :
    w'.tick = w.tick + 3 ∧ w'.sleeps = w.sleeps ∧
      w.execs.length = w'.execs.length + 1 := by
  obtain ⟨ec, rest, hw, hout⟩ := executeCommand_eq h
  obtain ⟨-, h2⟩ := Prod.mk.injEq .. ▸ hout
  subst h2
  simp [hw]

theorem mkCommandResult_timestamp (cmd : String) (ec : ExecContent)
    (ts startT endT : Nat) :
    (mkCommandResult cmd ec ts startT endT).timestamp = ts := rfl

theorem mkCommandResult_hashes (cmd : String) (ec : ExecContent)
    (ts startT endT : Nat) :
    (mkCommandResult cmd ec ts startT endT).stdoutHash = hashString ec.stdout ∧
    (mkCommandResult cmd ec ts startT endT).stderrHash = hashString ec.stderr ∧
    (mkCommandResult cmd ec ts startT endT).stdout = ec.stdout := by
  constructor
  · rfl
  · exact ⟨rfl, rfl⟩

/-! ## Field preservation along the step sequence -/

/-- The result fields a drill step leaves untouched, and how it may move the
world: pre-snapshot touches only `preSnapshot` and appends to `errors`. -/
theorem stepPre_pres {env : Env} {scen : Scenario} {res : DrillResult}
    {w : World} {res' : DrillResult} {w' : World}
    (h : stepPre env scen res w = some (res', w')) :
    res'.disrupt = res.disrupt ∧ res'.recover = res.recover ∧
    res'.postSnapshot = res.postSnapshot ∧ res'.rpoVerify = res.rpoVerify ∧
    res'.healthCheckAttempts = res.healthCheckAttempts ∧
    res'.factorLogs = res.factorLogs ∧
    res'.rtoStartTime = res.rtoStartTime ∧
    res'.rtoEndTime = res.rtoEndTime ∧
    res'.rta = res.rta ∧ res'.rtoTarget = res.rtoTarget ∧
    res'.rtoPassed = res.rtoPassed ∧ res'.rpoPassed = res.rpoPassed ∧
    res'.rpoTarget = res.rpoTarget ∧
    (∃ l, res'.errors = res.errors ++ l) ∧
    w.tick ≤ w'.tick ∧ w'.sleeps = w.sleeps := by
  unfold stepPre at h
  split at h
  · split at h
    · split at h
      · exact Option.noConfusion h
      · next c w2 heq =>
          obtain ⟨h1, h2, h3⟩ := executeCommand_world heq
          cases h
          split <;> simp_all
    · cases h; simp
  · cases h; simp

/-- Disrupt touches only `disrupt` and appends to `errors`. -/
theorem stepDisrupt_pres {env : Env} {scen : Scenario} {res : DrillResult}
    {w : World} {res' : DrillResult} {w' : World}
    (h : stepDisrupt env scen res w = some (res', w')) :
    res'.preSnapshot = res.preSnapshot ∧ res'.recover = res.recover ∧
    res'.postSnapshot = res.postSnapshot ∧ res'.rpoVerify = res.rpoVerify ∧
    res'.healthCheckAttempts = res.healthCheckAttempts ∧
    res'.factorLogs = res.factorLogs ∧
    res'.rtoStartTime = res.rtoStartTime ∧
    res'.rtoEndTime = res.rtoEndTime ∧
    res'.rta = res.rta ∧ res'.rtoTarget = res.rtoTarget ∧
    res'.rtoPassed = res.rtoPassed ∧ res'.rpoPassed = res.rpoPassed ∧
    res'.rpoTarget = res.rpoTarget ∧
    (∃ l, res'.errors = res.errors ++ l) ∧
    w.tick ≤ w'.tick ∧ w'.sleeps = w.sleeps := by
  unfold stepDisrupt at h
  split at h
  · exact Option.noConfusion h
  · next c w2 heq =>
      obtain ⟨h1, h2, h3⟩ := executeCommand_world heq
      cases h
      split <;> simp_all

/-- Recover touches only `recover` and appends to `errors`. -/
theorem stepRecover_pres {env : Env} {scen : Scenario} {res : DrillResult}
    {w : World} {res' : DrillResult} {w' : World}
    (h : stepRecover env scen res w = some (res', w')) :
    res'.preSnapshot = res.preSnapshot ∧ res'.disrupt = res.disrupt ∧
    res'.postSnapshot = res.postSnapshot ∧ res'.rpoVerify = res.rpoVerify ∧
    res'.healthCheckAttempts = res.healthCheckAttempts ∧
    res'.factorLogs = res.factorLogs ∧
    res'.rtoStartTime = res.rtoStartTime ∧
    res'.rtoEndTime = res.rtoEndTime ∧
    res'.rta = res.rta ∧ res'.rtoTarget = res.rtoTarget ∧
    res'.rtoPassed = res.rtoPassed ∧ res'.rpoPassed = res.rpoPassed ∧
    res'.rpoTarget = res.rpoTarget ∧
    (∃ l, res'.errors = res.errors ++ l) ∧
    w.tick ≤ w'.tick ∧ w'.sleeps = w.sleeps := by
  unfold stepRecover at h
  split at h
  · split at h
    · exact Option.noConfusion h
    · next c w2 heq =>
        obtain ⟨h1, h2, h3⟩ := executeCommand_world heq
        cases h
        split <;> simp_all
  · cases h; simp

/-- Post-snapshot touches only `postSnapshot` and appends to `errors`. -/
theorem stepPost_pres {env : Env} {scen : Scenario} {res : DrillResult}
    {w : World} {res' : DrillResult} {w' : World}
    (h : stepPost env scen res w = some (res', w')) :
    res'.preSnapshot = res.preSnapshot ∧ res'.disrupt = res.disrupt ∧
    res'.recover = res.recover ∧ res'.rpoVerify = res.rpoVerify ∧
    res'.healthCheckAttempts = res.healthCheckAttempts ∧
    res'.factorLogs = res.factorLogs ∧
    res'.rtoStartTime = res.rtoStartTime ∧
    res'.rtoEndTime = res.rtoEndTime ∧
    res'.rta = res.rta ∧ res'.rtoTarget = res.rtoTarget ∧
    res'.rtoPassed = res.rtoPassed ∧ res'.rpoPassed = res.rpoPassed ∧
    res'.rpoTarget = res.rpoTarget ∧
    (∃ l, res'.errors = res.errors ++ l) ∧
    w.tick ≤ w'.tick ∧ w'.sleeps = w.sleeps := by
  unfold stepPost at h
  split at h
  · split at h
    · split at h
      · exact Option.noConfusion h
      · next c w2 heq =>
          obtain ⟨h1, h2, h3⟩ := executeCommand_world heq
          cases h
          split <;> simp_all
    · cases h; simp
  · cases h; simp

/-- The down-detection probe: appends exactly one attempt, records its
timestamp as the RTA start exactly when it failed, touches nothing else. -/
theorem stepDown_spec {env : Env} {cmd : String} {res : DrillResult}
    {w : World} {res' : DrillResult} {w' : World}
    (h : stepDown env cmd res w = some (res', w')) :
    ∃ c w2, executeCommand cmd env w = some (c, w2) ∧ w' = w2 ∧
      res'.healthCheckAttempts = res.healthCheckAttempts ++ [c] ∧
      res'.rtoStartTime =
        (if c.exitCode ≠ 0 then c.timestamp else res.rtoStartTime) ∧
      res'.preSnapshot = res.preSnapshot ∧ res'.disrupt = res.disrupt ∧
      res'.recover = res.recover ∧ res'.postSnapshot = res.postSnapshot ∧
      res'.rpoVerify = res.rpoVerify ∧ res'.factorLogs = res.factorLogs ∧
      res'.rtoEndTime = res.rtoEndTime ∧ res'.rta = res.rta ∧
      res'.rtoTarget = res.rtoTarget ∧ res'.rtoPassed = res.rtoPassed ∧
      res'.rpoPassed = res.rpoPassed ∧ res'.rpoTarget = res.rpoTarget ∧
      res'.errors = res.errors := by
  unfold stepDown at h
  split at h
  · exact Option.noConfusion h
  · next c w2 heq =>
      cases h
      refine ⟨c, _, heq, rfl, ?_⟩
      split <;> simp

/-- Whether an RPO verify command is configured
(`scenario.RPOCheck != nil && scenario.RPOCheck.VerifyCommand != ""`). -/
def hasVerify (scen : Scenario) : Bool :=
  match scen.rpoCheck with
  | some rpo => rpo.verifyCommand ≠ ""
  | none => false

/-- RPO verification: preserves the timing verdict and history; when a
verify command is configured it records its result and derives RPO-passed
from its exit code, otherwise RPO-passed is untouched and a missing-verify
error is appended exactly when an RPO target was set. -/
theorem stepRPO_spec {env : Env} {scen : Scenario} {rpoT : Int}
    {res : DrillResult} {w : World} {res' : DrillResult} {w' : World}
    (h : stepRPO env scen rpoT res w = some (res', w')) :
    res'.preSnapshot = res.preSnapshot ∧ res'.disrupt = res.disrupt ∧
    res'.recover = res.recover ∧ res'.postSnapshot = res.postSnapshot ∧
    res'.healthCheckAttempts = res.healthCheckAttempts ∧
    res'.factorLogs = res.factorLogs ∧
    res'.rtoStartTime = res.rtoStartTime ∧
    res'.rtoEndTime = res.rtoEndTime ∧
    res'.rta = res.rta ∧ res'.rtoTarget = res.rtoTarget ∧
    res'.rtoPassed = res.rtoPassed ∧ res'.rpoTarget = res.rpoTarget ∧
    (∃ l, res'.errors = res.errors ++ l) ∧
    (hasVerify scen = true →
      ∃ c, res'.rpoVerify = some c ∧
        (res'.rpoPassed = true ↔ c.exitCode = 0) ∧
        (c.exitCode ≠ 0 → rpoVerifyErr c.exitCode ∈ res'.errors)) ∧
    (hasVerify scen = false →
      res'.rpoVerify = res.rpoVerify ∧ res'.rpoPassed = res.rpoPassed ∧
      (rpoT > 0 → rpoNoVerifyErr ∈ res'.errors)) := by
  unfold stepRPO at h
  unfold hasVerify
  split at h
  · next rpo hrc =>
    split at h
    · split at h
      · exact Option.noConfusion h
      · next c w2 heq =>
          cases h
          split <;> simp_all
  -- failing verify: res' carries rpoPassed := false and the appended error
    · split at h <;> (cases h; simp_all)
  · split at h <;> (cases h; simp_all)

/-- Factor log commands only append to `factorLogs`; in particular they
never touch the error list. -/
theorem runLogs_pres {env : Env} :
    ∀ {cmds : List String} {res : DrillResult} {w : World}
      {res' : DrillResult} {w' : World},
    runLogs env cmds res w = some (res', w') →
    res'.preSnapshot = res.preSnapshot ∧ res'.disrupt = res.disrupt ∧
    res'.recover = res.recover ∧ res'.postSnapshot = res.postSnapshot ∧
    res'.rpoVerify = res.rpoVerify ∧
    res'.healthCheckAttempts = res.healthCheckAttempts ∧
    res'.rtoStartTime = res.rtoStartTime ∧
    res'.rtoEndTime = res.rtoEndTime ∧
    res'.rta = res.rta ∧ res'.rtoTarget = res.rtoTarget ∧
    res'.rtoPassed = res.rtoPassed ∧ res'.rpoPassed = res.rpoPassed ∧
    res'.rpoTarget = res.rpoTarget ∧
    res'.errors = res.errors := by
  intro cmds
  induction cmds with
  | nil => intro res w res' w' h; cases h; simp
  | cons cmd rest ih =>
    intro res w res' w' h
    unfold runLogs at h
    split at h
    · exact Option.noConfusion h
    · next c w2 heq =>
        have := ih h
        simpa using this

/-- Factor-log collection as a whole preserves everything but
`factorLogs`. -/
theorem stepFactors_pres {env : Env} {scen : Scenario} {res : DrillResult}
    {w : World} {res' : DrillResult} {w' : World}
    (h : stepFactors env scen res w = some (res', w')) :
    res'.preSnapshot = res.preSnapshot ∧ res'.disrupt = res.disrupt ∧
    res'.recover = res.recover ∧ res'.postSnapshot = res.postSnapshot ∧
    res'.rpoVerify = res.rpoVerify ∧
    res'.healthCheckAttempts = res.healthCheckAttempts ∧
    res'.rtoStartTime = res.rtoStartTime ∧
    res'.rtoEndTime = res.rtoEndTime ∧
    res'.rta = res.rta ∧ res'.rtoTarget = res.rtoTarget ∧
    res'.rtoPassed = res.rtoPassed ∧ res'.rpoPassed = res.rpoPassed ∧
    res'.rpoTarget = res.rpoTarget ∧
    res'.errors = res.errors := by
  unfold stepFactors at h
  split at h
  · split at h
    · exact runLogs_pres h
    · cases h; simp
  · cases h; simp

/-- Final bookkeeping: sets the end timestamp; when the loop already set
the RTA end, the whole timing verdict is carried through unchanged, and
otherwise it is defaulted/recomputed exactly as runner.go lines 175–181. -/
theorem finalize_spec (env : Env) (res : DrillResult) (w : World) :
    (finalize env res w).1.preSnapshot = res.preSnapshot ∧
    (finalize env res w).1.disrupt = res.disrupt ∧
    (finalize env res w).1.recover = res.recover ∧
    (finalize env res w).1.postSnapshot = res.postSnapshot ∧
    (finalize env res w).1.rpoVerify = res.rpoVerify ∧
    (finalize env res w).1.healthCheckAttempts = res.healthCheckAttempts ∧
    (finalize env res w).1.factorLogs = res.factorLogs ∧
    (finalize env res w).1.rtoStartTime = res.rtoStartTime ∧
    (finalize env res w).1.rtoTarget = res.rtoTarget ∧
    (finalize env res w).1.rpoPassed = res.rpoPassed ∧
    (finalize env res w).1.rpoTarget = res.rpoTarget ∧
    (finalize env res w).1.errors = res.errors ∧
    (res.rtoEndTime ≠ 0 →
      (finalize env res w).1.rtoEndTime = res.rtoEndTime ∧
      (finalize env res w).1.rta = res.rta ∧
      (finalize env res w).1.rtoPassed = res.rtoPassed) ∧
    (res.rtoEndTime = 0 → res.rtoStartTime = 0 →
      (finalize env res w).1.rta = res.rta ∧
      (finalize env res w).1.rtoPassed = res.rtoPassed ∧
      (finalize env res w).1.rtoStartTime = 0) ∧
    (res.rtoEndTime = 0 → res.rtoStartTime ≠ 0 →
      (finalize env res w).1.rtoEndTime = env.clock w.tick ∧
      (finalize env res w).1.rta =
        ((env.clock w.tick : Int) - (res.rtoStartTime : Int)) ∧
      (finalize env res w).1.rtoPassed =
        decide (((env.clock w.tick : Int) - (res.rtoStartTime : Int))
          ≤ res.rtoTarget)) := by
  unfold finalize drawNow
  by_cases hend : res.rtoEndTime = 0
  · by_cases hstart : res.rtoStartTime = 0
    · simp [hend, hstart]
    · simp [hend, hstart]
  · simp [hend]

/-! ## Anatomy of the polling loop -/

/-- What one loop iteration does to the accumulated state: appends exactly
one health-check attempt, consumes exactly one raw outcome, moves time
forward, and leaves every non-timing field of the result alone. -/
def StepPres (env : Env) (cmd : String) (res res' : DrillResult)
    (w w' : World) : Prop :=
  (∃ c w1, executeCommand cmd env w = some (c, w1) ∧
    res'.healthCheckAttempts = res.healthCheckAttempts ++ [c] ∧
    w1.tick ≤ w'.tick) ∧
  w.execs.length = w'.execs.length + 1 ∧ w.tick ≤ w'.tick ∧
  res'.preSnapshot = res.preSnapshot ∧ res'.disrupt = res.disrupt ∧
  res'.recover = res.recover ∧ res'.postSnapshot = res.postSnapshot ∧
  res'.rpoVerify = res.rpoVerify ∧ res'.rpoPassed = res.rpoPassed ∧
  res'.rpoTarget = res.rpoTarget ∧ res'.factorLogs = res.factorLogs ∧
  res'.errors = res.errors ∧ res'.rtoTarget = res.rtoTarget ∧
  res'.startTime = res.startTime ∧ res'.endTime = res.endTime ∧
  res'.postDisruptDelay = res.postDisruptDelay

theorem waitStep_done_pres {env : Env} {cmd : String} {target : Int}
    {rtaStarted : Bool} {res : DrillResult} {w : World}
    {b : Bool} {res2 : DrillResult} {w2 : World}
    (hstep : waitStep env cmd target rtaStarted res w = .done b res2 w2) :
    StepPres env cmd res res2 w w2 := by
  unfold waitStep at hstep
  cases hex : executeCommand cmd env w with
  | none => rw [hex] at hstep; exact StepOut.noConfusion hstep
  | some p =>
    obtain ⟨a, w1⟩ := p
    obtain ⟨h1, h2, h3⟩ := executeCommand_world hex
    rw [hex] at hstep
    rcases Bool.eq_false_or_eq_true rtaStarted with hrs | hrs <;>
      simp only [hrs, drawNow, Bool.not_true, Bool.not_false, ite_true,
        ite_false, if_true, if_false, Bool.false_eq_true] at hstep <;>
      unfold StepPres <;>
      (repeat' split at hstep) <;>
      first
        | exact StepOut.noConfusion hstep
        | (cases hstep
           exact ⟨⟨a, _, hex, rfl, by first | omega | (simp <;> omega)⟩, h3,
             by first | omega | (simp <;> omega),
             rfl, rfl, rfl, rfl, rfl, rfl, rfl, rfl, rfl, rfl, rfl, rfl, rfl⟩)

theorem waitStep_next_pres {env : Env} {cmd : String} {target : Int}
    {rtaStarted : Bool} {res : DrillResult} {w : World}
    {rs2 : Bool} {res2 : DrillResult} {w2 : World}
    (hstep : waitStep env cmd target rtaStarted res w = .next rs2 res2 w2) :
    StepPres env cmd res res2 w w2 := by
  unfold waitStep at hstep
  cases hex : executeCommand cmd env w with
  | none => rw [hex] at hstep; exact StepOut.noConfusion hstep
  | some p =>
    obtain ⟨a, w1⟩ := p
    obtain ⟨h1, h2, h3⟩ := executeCommand_world hex
    rw [hex] at hstep
    rcases Bool.eq_false_or_eq_true rtaStarted with hrs | hrs <;>
      simp only [hrs, drawNow, Bool.not_true, Bool.not_false, ite_true,
        ite_false, if_true, if_false, Bool.false_eq_true] at hstep <;>
      unfold StepPres <;>
      (repeat' split at hstep) <;>
      first
        | exact StepOut.noConfusion hstep
        | (cases hstep
           exact ⟨⟨a, _, hex, rfl, by first | omega | (simp <;> omega)⟩, h3,
             by first | omega | (simp <;> omega),
             rfl, rfl, rfl, rfl, rfl, rfl, rfl, rfl, rfl, rfl, rfl, rfl, rfl⟩)

/-- The polling loop appends attempts (never removes or overwrites), one
per iteration — so the history grows by exactly the number of raw outcomes
consumed — and leaves every non-timing field of the result alone. -/
theorem waitLoop_pres {env : Env} {cmd : String} {target : Int} :
    ∀ {fuel : Nat} {rtaStarted : Bool} {res : DrillResult} {w : World}
      {b : Bool} {res' : DrillResult} {w' : World},
    waitLoop env cmd target fuel rtaStarted res w = some (b, res', w') →
    (∃ l, res'.healthCheckAttempts = res.healthCheckAttempts ++ l ∧
        w.execs.length = w'.execs.length + l.length) ∧
    w.tick ≤ w'.tick ∧
    res'.preSnapshot = res.preSnapshot ∧ res'.disrupt = res.disrupt ∧
    res'.recover = res.recover ∧ res'.postSnapshot = res.postSnapshot ∧
    res'.rpoVerify = res.rpoVerify ∧ res'.rpoPassed = res.rpoPassed ∧
    res'.rpoTarget = res.rpoTarget ∧ res'.factorLogs = res.factorLogs ∧
    res'.errors = res.errors ∧ res'.rtoTarget = res.rtoTarget ∧
    res'.startTime = res.startTime ∧ res'.endTime = res.endTime ∧
    res'.postDisruptDelay = res.postDisruptDelay := by
  intro fuel
  induction fuel with
  | zero => intro _ _ _ _ _ _ h; exact Option.noConfusion h
  | succ n ih =>
    intro rtaStarted res w b res' w' h
    rw [waitLoop] at h
    cases hstep : waitStep env cmd target rtaStarted res w with
    | stuck => rw [hstep] at h; exact Option.noConfusion h
    | done b2 res2 w2 =>
        rw [hstep] at h
        obtain ⟨⟨c, cw, hcex, hc, hct⟩, hlen, htick, hps, hd, hr, hpo, hrv,
          hrp, hrt, hfl, herr, htg, hst, het, hpd⟩ := waitStep_done_pres hstep
        cases h
        exact ⟨⟨[c], by simpa using hc, by simp; omega⟩, htick, hps, hd, hr,
          hpo, hrv, hrp, hrt, hfl, herr, htg, hst, het, hpd⟩
    | next rs2 res2 w2 =>
        rw [hstep] at h
        obtain ⟨⟨c, cw, hcex, hc, hct⟩, hlen, htick, hps, hd, hr, hpo, hrv,
          hrp, hrt, hfl, herr, htg, hst, het, hpd⟩ := waitStep_next_pres hstep
        obtain ⟨⟨l, hl, hlen2⟩, htick2, hps2, hd2, hr2, hpo2, hrv2, hrp2,
          hrt2, hfl2, herr2, htg2, hst2, het2, hpd2⟩ := ih h
        refine ⟨⟨c :: l, ?_, ?_⟩, by omega, hps2.trans hps, hd2.trans hd,
          hr2.trans hr, hpo2.trans hpo, hrv2.trans hrv, hrp2.trans hrp,
          hrt2.trans hrt, hfl2.trans hfl, herr2.trans herr, htg2.trans htg,
          hst2.trans hst, het2.trans het, hpd2.trans hpd⟩
        · rw [hl, hc]; simp
        · simp; omega

/-- The timing verdict shape at every exit of the polling loop: either RTA
never started (no downtime: verdict is a pass, both RTA bounds unset), or
both bounds are set, the verdict is exactly `RTA ≤ target`, and RTA is the
difference of RTA-end and RTA-start — except at a cancellation exit, where
RTA is measured from the clock reading taken immediately before the one
recorded as RTA-end. -/
def VerdictInv (env : Env) (target : Int) (res : DrillResult) : Prop :=
  (res.rtoStartTime = 0 ∧ res.rtoEndTime = 0 ∧ res.rta = 0 ∧
    res.rtoPassed = true) ∨
  (res.rtoStartTime ≠ 0 ∧ res.rtoEndTime ≠ 0 ∧
    (res.rtoPassed = true ↔ res.rta ≤ target) ∧
    (res.rta = (res.rtoEndTime : Int) - (res.rtoStartTime : Int) ∨
     ∃ i, res.rta = (env.clock i : Int) - (res.rtoStartTime : Int) ∧
          res.rtoEndTime = env.clock (i + 1)))

theorem waitStep_done_verdict {env : Env} {cmd : String} {target : Int}
    {rtaStarted : Bool} {res : DrillResult} {w : World}
    {b : Bool} {res2 : DrillResult} {w2 : World}
    (hpos : Env.Pos env)
    (hlink : rtaStarted = decide (res.rtoStartTime ≠ 0))
    (hrta : res.rta = 0) (hend : res.rtoEndTime = 0)
    (hstep : waitStep env cmd target rtaStarted res w = .done b res2 w2) :
    VerdictInv env target res2 := by
  unfold waitStep at hstep
  cases hex : executeCommand cmd env w with
  | none => rw [hex] at hstep; exact StepOut.noConfusion hstep
  | some p =>
    obtain ⟨a, w1⟩ := p
    obtain ⟨ec, rest, hw, hout⟩ := executeCommand_eq hex
    injection hout with ha hw1
    subst ha
    subst hw1
    rw [hex] at hstep
    rcases Bool.eq_false_or_eq_true rtaStarted with hrs | hrs
    · have hstart : res.rtoStartTime ≠ 0 :=
        of_decide_eq_true (hlink.symm.trans hrs)
      simp only [hrs, drawNow, Bool.not_true, Bool.not_false, ite_true,
        ite_false, if_true, if_false, Bool.false_eq_true] at hstep
      unfold VerdictInv
      (repeat' split at hstep) <;>
      first
        | exact StepOut.noConfusion hstep
        | (cases hstep
           refine Or.inr ⟨?_, Nat.pos_iff_ne_zero.mp (hpos _), ?_, ?_⟩
           · first | exact hstart | exact Nat.pos_iff_ne_zero.mp (hpos _)
           · simp <;> omega
           · first | exact Or.inl rfl | exact Or.inr ⟨_, rfl, rfl⟩)
    · have hstart : res.rtoStartTime = 0 :=
        not_not.mp (of_decide_eq_false (hlink.symm.trans hrs))
      simp only [hrs, drawNow, Bool.not_true, Bool.not_false, ite_true,
        ite_false, if_true, if_false, Bool.false_eq_true] at hstep
      unfold VerdictInv
      (repeat' split at hstep) <;>
      first
        | exact StepOut.noConfusion hstep
        | (cases hstep
           exact Or.inl ⟨hstart, hend, hrta, rfl⟩)
        | (cases hstep
           refine Or.inr ⟨?_, Nat.pos_iff_ne_zero.mp (hpos _), ?_, ?_⟩
           · first | exact hstart | exact Nat.pos_iff_ne_zero.mp (hpos _)
           · simp <;> omega
           · first | exact Or.inl rfl | exact Or.inr ⟨_, rfl, rfl⟩)

theorem waitStep_next_verdict {env : Env} {cmd : String} {target : Int}
    {rtaStarted : Bool} {res : DrillResult} {w : World}
    {rs2 : Bool} {res2 : DrillResult} {w2 : World}
    (hpos : Env.Pos env)
    (hlink : rtaStarted = decide (res.rtoStartTime ≠ 0))
    (hstep : waitStep env cmd target rtaStarted res w = .next rs2 res2 w2) :
    rs2 = decide (res2.rtoStartTime ≠ 0) ∧ res2.rta = res.rta ∧
      res2.rtoEndTime = res.rtoEndTime := by
  unfold waitStep at hstep
  cases hex : executeCommand cmd env w with
  | none => rw [hex] at hstep; exact StepOut.noConfusion hstep
  | some p =>
    obtain ⟨a, w1⟩ := p
    obtain ⟨ec, rest, hw, hout⟩ := executeCommand_eq hex
    injection hout with ha hw1
    subst ha
    subst hw1
    rw [hex] at hstep
    rcases Bool.eq_false_or_eq_true rtaStarted with hrs | hrs
    · have hstart : res.rtoStartTime ≠ 0 :=
        of_decide_eq_true (hlink.symm.trans hrs)
      simp only [hrs, drawNow, Bool.not_true, Bool.not_false, ite_true,
        ite_false, if_true, if_false, Bool.false_eq_true] at hstep
      (repeat' split at hstep) <;>
      first
        | exact StepOut.noConfusion hstep
        | (cases hstep
           exact ⟨(decide_eq_true hstart).symm, rfl, rfl⟩)
    · have hstart : res.rtoStartTime = 0 :=
        not_not.mp (of_decide_eq_false (hlink.symm.trans hrs))
      simp only [hrs, drawNow, Bool.not_true, Bool.not_false, ite_true,
        ite_false, if_true, if_false, Bool.false_eq_true] at hstep
      (repeat' split at hstep) <;>
      first
        | exact StepOut.noConfusion hstep
        | (cases hstep
           exact ⟨(decide_eq_true (Nat.pos_iff_ne_zero.mp (hpos _))).symm, rfl, rfl⟩)

/-- At every exit of the polling loop the timing verdict has the
`VerdictInv` shape, provided the loop was entered the way
`waitForHealthCheck` enters it (RTA measurement not yet finalized). -/
theorem waitLoop_verdict {env : Env} {cmd : String} {target : Int}
    (hpos : Env.Pos env) :
    ∀ {fuel : Nat} {rtaStarted : Bool} {res : DrillResult} {w : World}
      {b : Bool} {res' : DrillResult} {w' : World},
    rtaStarted = decide (res.rtoStartTime ≠ 0) →
    res.rta = 0 → res.rtoEndTime = 0 →
    waitLoop env cmd target fuel rtaStarted res w = some (b, res', w') →
    VerdictInv env target res' := by
  intro fuel
  induction fuel with
  | zero => intro _ _ _ _ _ _ _ _ _ h; exact Option.noConfusion h
  | succ n ih =>
    intro rtaStarted res w b res' w' hlink hrta hend h
    rw [waitLoop] at h
    cases hstep : waitStep env cmd target rtaStarted res w with
    | stuck => rw [hstep] at h; exact Option.noConfusion h
    | done b2 res2 w2 =>
        rw [hstep] at h
        cases h
        exact waitStep_done_verdict hpos hlink hrta hend hstep
    | next rs2 res2 w2 =>
        rw [hstep] at h
        obtain ⟨hlink2, hrta2, hend2⟩ := waitStep_next_verdict hpos hlink hstep
        exact ih hlink2 (hrta2.trans hrta) (hend2.trans hend) h

/-! ## Chronological order of the health-check history -/

/-- The recorded order of a history is chronological: timestamps never
decrease along the list. -/
def chrono (l : List CommandResult) : Prop :=
  l.Pairwise (fun a b => a.timestamp ≤ b.timestamp)

/-- Invariant carried while a run is in flight: the history is chronological
and every recorded timestamp is at most the next clock reading. -/
def AttemptsOK (env : Env) (l : List CommandResult) (tick : Nat) : Prop :=
  chrono l ∧ ∀ c ∈ l, c.timestamp ≤ env.clock tick

theorem AttemptsOK_mono {env : Env} {l : List CommandResult} {t t' : Nat}
    (hm : Env.Mono env) (h : AttemptsOK env l t) (ht : t ≤ t') :
    AttemptsOK env l t' :=
  ⟨h.1, fun c hc => (h.2 c hc).trans (hm t t' ht)⟩

/-- Appending the attempt produced by `executeCommand` keeps the history
chronological: its timestamp is the current clock reading. -/
theorem AttemptsOK_append {env : Env} {cmd : String} {w : World}
    {c : CommandResult} {w' : World} {l : List CommandResult}
    (hm : Env.Mono env) (h : AttemptsOK env l w.tick)
    (hex : executeCommand cmd env w = some (c, w')) :
    AttemptsOK env (l ++ [c]) w'.tick := by
  obtain ⟨ec, rest, hw, hout⟩ := executeCommand_eq hex
  injection hout with hc hw'
  subst hc
  subst hw'
  constructor
  · refine List.pairwise_append.mpr ⟨h.1, List.pairwise_singleton _ _, ?_⟩
    intro a ha b hb
    rw [List.mem_singleton] at hb
    subst hb
    exact h.2 a ha
  · intro a ha
    rcases List.mem_append.mp ha with ha | ha
    · exact (h.2 a ha).trans (hm w.tick (w.tick + 3) (by omega))
    · rw [List.mem_singleton] at ha
      subst ha
      exact hm w.tick (w.tick + 3) (by omega)

/-- The polling loop preserves chronological order of the history. -/
theorem waitLoop_chrono {env : Env} {cmd : String} {target : Int}
    (hm : Env.Mono env) :
    ∀ {fuel : Nat} {rtaStarted : Bool} {res : DrillResult} {w : World}
      {b : Bool} {res' : DrillResult} {w' : World},
    waitLoop env cmd target fuel rtaStarted res w = some (b, res', w') →
    AttemptsOK env res.healthCheckAttempts w.tick →
    AttemptsOK env res'.healthCheckAttempts w'.tick := by
  intro fuel
  induction fuel with
  | zero => intro _ _ _ _ _ _ h; exact Option.noConfusion h
  | succ n ih =>
    intro rtaStarted res w b res' w' h hok
    rw [waitLoop] at h
    cases hstep : waitStep env cmd target rtaStarted res w with
    | stuck => rw [hstep] at h; exact Option.noConfusion h
    | done b2 res2 w2 =>
        rw [hstep] at h
        obtain ⟨⟨c, cw, hcex, hc, hct⟩, -⟩ := waitStep_done_pres hstep
        cases h
        rw [hc]
        exact AttemptsOK_mono hm (AttemptsOK_append hm hok hcex) hct
    | next rs2 res2 w2 =>
        rw [hstep] at h
        obtain ⟨⟨c, cw, hcex, hc, hct⟩, -⟩ := waitStep_next_pres hstep
        refine ih h ?_
        rw [hc]
        exact AttemptsOK_mono hm (AttemptsOK_append hm hok hcex) hct

/-! ## Decomposition of a completed run -/

/-- The world at the start of `Run`, after the one `time.Now()` call that
stamps `StartTime`. -/
def initWorld (env : Env) : World := ⟨1, env.execs, 0⟩

/-- The result record at the start of `Run`: zero values, the scenario, the
start timestamp and the three parsed durations. -/
def initRes (env : Env) (scen : Scenario) (rtoT rpoT delay : Int) :
    DrillResult :=
  { emptyResult scen with
      startTime := env.clock 0, rtoTarget := rtoT,
      rpoTarget := rpoT, postDisruptDelay := delay }

/-- A completed run is exactly the step pipeline of runner.go `Run`: the
three durations parsed, steps 1–2 ran, the post-disrupt delay was not
cancelled, steps 4–8 ran, and the result is the finalized record. -/
theorem Run_completed_pipeline {env : Env} {scen : Scenario} {fuel : Nat}
    {res : DrillResult} (h : completedOf (Run env scen fuel) = some res) :
    ∃ rtoT rpoT delay res1 w1 res2 w2 res3 w3 res4 w4 b res5 w5 res6 w6
      res7 w7 res8 w8,
      scen.rtoTarget = Except.ok rtoT ∧
      scen.rpoTarget = Except.ok rpoT ∧
      scen.postDisruptDelay = Except.ok delay ∧
      stepPre env scen (initRes env scen rtoT rpoT delay) (initWorld env)
        = some (res1, w1) ∧
      stepDisrupt env scen res1 w1 = some (res2, w2) ∧
      ¬(delay > 0 ∧ env.cancelDelay = true) ∧
      stepDown env scen.healthCheckCommand res2 w2 = some (res3, w3) ∧
      stepRecover env scen res3 w3 = some (res4, w4) ∧
      waitForHealthCheck env scen.healthCheckCommand rtoT fuel res4 w4
        = some (b, res5, w5) ∧
      stepPost env scen res5 w5 = some (res6, w6) ∧
      stepRPO env scen rpoT res6 w6 = some (res7, w7) ∧
      stepFactors env scen res7 w7 = some (res8, w8) ∧
      res = (finalize env res8 w8).1 := by
  unfold Run at h
  simp only [drawNow] at h
  split at h
  · simp [completedOf] at h
  next rtoT hok1 =>
  split at h
  · simp [completedOf] at h
  next rpoT hok2 =>
  split at h
  · simp [completedOf] at h
  next delay hok3 =>
  unfold runSteps at h
  split at h
  · simp [completedOf] at h
  next res1 w1 hpre =>
  split at h
  · simp [completedOf] at h
  next res2 w2 hdis =>
  split at h
  · simp [completedOf] at h
  next hnoc =>
  split at h
  · simp [completedOf] at h
  next res3 w3 hdown =>
  split at h
  · simp [completedOf] at h
  next res4 w4 hrec =>
  split at h
  · simp [completedOf] at h
  next b res5 w5 hloop =>
  split at h
  · simp [completedOf] at h
  next res6 w6 hpost =>
  split at h
  · simp [completedOf] at h
  next res7 w7 hrpo =>
  split at h
  · simp [completedOf] at h
  next res8 w8 hfact =>
  simp only [completedOf, Option.some.injEq] at h
  exact ⟨rtoT, rpoT, delay, res1, w1, res2, w2, res3, w3, res4, w4, b, res5,
    w5, res6, w6, res7, w7, res8, w8, hok1, hok2, hok3, hpre, hdis, hnoc,
    hdown, hrec, hloop, hpost, hrpo, hfact, h.symm⟩

/-! ## Claim C6 — exit-code mapping of the command executor -/

/-- C6, amended. For every invocation of the command executor on the
next raw outcome `ec`: a normal process exit yields that exit code with the
captured stderr; death classified under a deadline yields exit code −1 with
a synthesized timeout stderr when the captured stderr is empty; caller
cancellation yields −1 with a cancellation message under the same
empty-stderr condition; any other launch failure yields −1 with the
underlying error text as stderr — likewise only when the captured stderr is
empty, the captured stderr otherwise (this last condition is what the claim
as stated omits). -/
theorem c6_amended {cmd : String} {env : Env} {w : World} {ec : ExecContent}
    {rest : List ExecContent} {c : CommandResult} {w' : World}
    (hw : w.execs = ec :: rest)
    (h : executeCommand cmd env w = some (c, w')) :
    (ec.err = .noError → c.exitCode = 0 ∧ c.stderr = ec.stderr) ∧
    (∀ code, ec.err = .exitError code →
      c.exitCode = code ∧ c.stderr = ec.stderr) ∧
    (∀ msg, ec.err = .other msg → ec.ctxErr = .deadlineExceeded →
      c.exitCode = -1 ∧
      c.stderr = (if ec.stderr = "" then "command timed out: " ++ msg
                  else ec.stderr)) ∧
    (∀ msg, ec.err = .other msg → ec.ctxErr = .canceled →
      c.exitCode = -1 ∧
      c.stderr = (if ec.stderr = "" then "command canceled: " ++ msg
                  else ec.stderr)) ∧
    (∀ msg, ec.err = .other msg → ec.ctxErr = .noErr →
      c.exitCode = -1 ∧
      c.stderr = (if ec.stderr = "" then msg else ec.stderr)) := by
  obtain ⟨ec2, rest2, hw2, hout⟩ := executeCommand_eq h
  rw [hw] at hw2
  injection hw2 with he hr
  subst he
  injection hout with hc hw'
  subst hc
  refine ⟨?_, ?_, ?_, ?_, ?_⟩
  · intro heq; constructor <;> simp [mkCommandResult, heq]
  · intro code heq; constructor <;> simp [mkCommandResult, heq]
  · intro msg heq hctx; constructor <;> simp [mkCommandResult, heq, hctx]
  · intro msg heq hctx; constructor <;> simp [mkCommandResult, heq, hctx]
  · intro msg heq hctx; constructor <;> simp [mkCommandResult, heq, hctx]

def ecTimeout : ExecContent :=
  ⟨"out", "", .other "context deadline exceeded", .deadlineExceeded⟩

def envC6 : Env := ⟨fun i => i + 1, [ecTimeout], false, fun _ => false⟩

/-- Witness for C6 at a concrete timed-out execution. -/
theorem c6_witness :
    ∃ c w', executeCommand "hc" envC6 ⟨0, envC6.execs, 0⟩ = some (c, w') ∧
      c.exitCode = -1 ∧
      c.stderr = "command timed out: context deadline exceeded" := by
  have hm := @c6_amended "hc" envC6 ⟨0, envC6.execs, 0⟩ ecTimeout [] _ _
    rfl rfl
  have h3 := hm.2.2.1 "context deadline exceeded" rfl rfl
  exact ⟨_, _, rfl, h3.1, h3.2.trans (by decide)⟩

def ecLaunch : ExecContent := ⟨"", "warning", .other "launch failed", .noErr⟩

def envC6b : Env := ⟨fun i => i + 1, [ecLaunch], false, fun _ => false⟩

/-- C6, counterexample to the claim as stated. A launch failure whose
execution captured a non-empty stderr keeps that captured stderr; the claim
demands the underlying error text ("launch failed") unconditionally, but
the code yields "warning". -/
theorem c6_counterexample :
    ((executeCommand "x" envC6b ⟨0, envC6b.execs, 0⟩).map
      (fun p => (p.1.exitCode, p.1.stderr))) = some (-1, "warning") ∧
    ("warning" : String) ≠ "launch failed" := by
  constructor
  · rfl
  · decide

/-! ## Claim C7 — stdout/stderr content digests -/

/-- C7. For every produced `CommandResult`, `StdoutHash`/`StderrHash`
are the SHA-256 hex digests of exactly the captured stdout and stderr text
(computed before the error branches may rewrite the `Stderr` field), hence
independent of the exit-code classification; hashing is deterministic, and
empty captured output hashes to the SHA-256 digest of the empty string. -/
theorem c7_hashes {cmd : String} {env : Env} {w : World} {ec : ExecContent}
    {rest : List ExecContent} {c : CommandResult} {w' : World}
    (hw : w.execs = ec :: rest)
    (h : executeCommand cmd env w = some (c, w')) :
    c.stdout = ec.stdout ∧
    c.stdoutHash = hashString ec.stdout ∧
    c.stderrHash = hashString ec.stderr ∧
    c.stdoutHash = hashString c.stdout ∧
    hashString "" =
      "e3b0c44298fc1c149afbf4c8996fb92427ae41e4649b934ca495991b7852b855" ∧
    (∀ s t : String, s = t → hashString s = hashString t) := by
  obtain ⟨ec2, rest2, hw2, hout⟩ := executeCommand_eq h
  rw [hw] at hw2
  injection hw2 with he hr
  subst he
  injection hout with hc hw'
  subst hc
  refine ⟨rfl, rfl, rfl, rfl, by decide, fun s t hst => hst ▸ rfl⟩

def ecHashW : ExecContent := ⟨"data", "oops", .exitError 7, .noErr⟩

def envC7 : Env := ⟨fun i => i + 1, [ecHashW], false, fun _ => false⟩

/-- Witness for C7 at a concrete failed execution: the digests are those of
the captured text even though the exit code is non-zero. -/
theorem c7_witness :
    ∃ c w', executeCommand "x" envC7 ⟨0, envC7.execs, 0⟩ = some (c, w') ∧
      c.stdoutHash = hashString "data" ∧ c.stderrHash = hashString "oops" ∧
      c.exitCode = 7 := by
  have hm := @c7_hashes "x" envC7 ⟨0, envC7.execs, 0⟩ ecHashW [] _ _ rfl rfl
  exact ⟨_, _, rfl, hm.2.1, hm.2.2.1, rfl⟩

/-! ## Claim C5 — RPO verdict -/

/-- C5. For every completed run, RPO-passed is true iff an RPO verify
command was configured and it exited 0 (a verify result is recorded exactly
when one is configured); and when an RPO target is set with no verify
command configured, RPO-passed is false and the explanatory
missing-verify-command error is in the error list. -/
theorem c5_rpo {env : Env} {scen : Scenario} {fuel : Nat} {res : DrillResult}
    (h : completedOf (Run env scen fuel) = some res) :
    (res.rpoPassed = true ↔ ∃ c, res.rpoVerify = some c ∧ c.exitCode = 0) ∧
    (res.rpoVerify.isSome = true ↔ hasVerify scen = true) ∧
    (res.rpoTarget > 0 → hasVerify scen = false →
      res.rpoPassed = false ∧ rpoNoVerifyErr ∈ res.errors) := by
  obtain ⟨rtoT, rpoT, delay, res1, w1, res2, w2, res3, w3, res4, w4, b, res5,
    w5, res6, w6, res7, w7, res8, w8, hok1, hok2, hok3, hpre, hdis, hnoc,
    hdown, hrec, hloop, hpost, hrpo, hfact, hres⟩ := Run_completed_pipeline h
  unfold waitForHealthCheck at hloop
  obtain ⟨-, -, -, q1rv, -, -, -, -, -, -, -, q1rp, q1rpt, -, -, -⟩ :=
    stepPre_pres hpre
  obtain ⟨-, -, -, q2rv, -, -, -, -, -, -, -, q2rp, q2rpt, -, -, -⟩ :=
    stepDisrupt_pres hdis
  obtain ⟨-, -, -, -, -, -, -, -, -, -, q3rv, -, -, -, -, -, q3rp, q3rpt,
    -⟩ := stepDown_spec hdown
  obtain ⟨-, -, -, q4rv, -, -, -, -, -, -, -, q4rp, q4rpt, -, -, -⟩ :=
    stepRecover_pres hrec
  obtain ⟨-, -, -, -, -, -, q5rv, q5rp, q5rpt, -, -, -, -, -, -⟩ :=
    waitLoop_pres hloop
  obtain ⟨-, -, -, q6rv, -, -, -, -, -, -, -, q6rp, q6rpt, -, -, -⟩ :=
    stepPost_pres hpost
  obtain ⟨-, -, -, -, -, -, -, -, -, -, -, q7rpt, ⟨l7, hl7⟩, hvt, hvf⟩ :=
    stepRPO_spec hrpo
  obtain ⟨-, -, -, -, q8rv, -, -, -, -, -, -, q8rp, q8rpt, q8err⟩ :=
    stepFactors_pres hfact
  have f := finalize_spec env res8 w8
  have hrv : res.rpoVerify = res7.rpoVerify := by
    rw [hres, f.2.2.2.2.1, q8rv]
  have hrp : res.rpoPassed = res7.rpoPassed := by
    rw [hres, f.2.2.2.2.2.2.2.2.2.1, q8rp]
  have herr : res.errors = res7.errors := by
    rw [hres, f.2.2.2.2.2.2.2.2.2.2.2.1, q8err]
  have hrpt : res.rpoTarget = rpoT := by
    rw [hres, f.2.2.2.2.2.2.2.2.2.2.1, q8rpt, q7rpt, q6rpt, q5rpt, q4rpt,
      q3rpt, q2rpt, q1rpt]
    rfl
  have hv6 : res6.rpoVerify = none := by
    rw [q6rv, q5rv, q4rv, q3rv, q2rv, q1rv]
    rfl
  have hp6 : res6.rpoPassed = false := by
    rw [q6rp, q5rp, q4rp, q3rp, q2rp, q1rp]
    rfl
  rcases Bool.eq_false_or_eq_true (hasVerify scen) with hhv | hhv
  · obtain ⟨c, hv7, hiff, herr7⟩ := hvt hhv
    refine ⟨?_, ?_, ?_⟩
    · rw [hrp, hrv, hv7]
      constructor
      · intro hp
        exact ⟨c, rfl, hiff.mp hp⟩
      · rintro ⟨c2, hc2, h0⟩
        injection hc2 with hcc
        exact hiff.mpr (hcc ▸ h0)
    · rw [hrv, hv7, hhv]
      simp
    · intro htgt hhvf
      rw [hhv] at hhvf
      exact Bool.noConfusion hhvf
  · obtain ⟨hv7, hp7, herr7⟩ := hvf hhv
    refine ⟨?_, ?_, ?_⟩
    · rw [hrp, hp7, hp6, hrv, hv7, hv6]
      constructor
      · intro hfalse; exact Bool.noConfusion hfalse
      · rintro ⟨c, hc, -⟩; exact Option.noConfusion hc
    · rw [hrv, hv7, hv6, hhv]
      simp
    · rintro htgt -
      rw [hrpt] at htgt
      refine ⟨by rw [hrp, hp7, hp6], ?_⟩
      rw [herr]
      exact herr7 htgt

def scenC5 : Scenario :=
  { name := "c5", description := "", rtoTarget := .ok 100, rpoTarget := .ok 5,
    disruptCommand := "d", recoverCommand := "", healthCheckCommand := "h",
    postDisruptDelay := .ok 0, rpoCheck := none, factors := none }

/-- A raw outcome for a command that succeeded with no output. -/
def okE : ExecContent := ⟨"", "", .noError, .noErr⟩

def envC5 : Env := ⟨fun i => i + 1, [okE, okE, okE], false, fun _ => false⟩

def resC5 : DrillResult :=
  (completedOf (Run envC5 scenC5 5)).getD (emptyResult scenC5)

/-- Witness for C5: an RPO target with no verify command yields a failed
RPO verdict and the explanatory error. -/
theorem c5_witness : resC5.rpoPassed = false ∧ rpoNoVerifyErr ∈ resC5.errors := by
  have h : completedOf (Run envC5 scenC5 5) = some resC5 := rfl
  exact (c5_rpo h).2.2 (by decide) (by decide)

/-! ## Claim C4 — non-fatal command failures -/

theorem stepPre_err {env : Env} {scen : Scenario} {res : DrillResult}
    {w : World} {res' : DrillResult} {w' : World}
    (h : stepPre env scen res w = some (res', w'))
    (h0 : res.preSnapshot = none) :
    ∀ c, res'.preSnapshot = some c → c.exitCode ≠ 0 →
      preSnapErr c.exitCode ∈ res'.errors := by
  unfold stepPre at h
  split at h
  · split at h
    · split at h
      · exact Option.noConfusion h
      · next cc w2 heq =>
          cases h
          intro c hc hne
          split at hc <;> split <;> simp_all
    · cases h
      intro c hc hne
      rw [h0] at hc
      exact Option.noConfusion hc
  · cases h
    intro c hc hne
    rw [h0] at hc
    exact Option.noConfusion hc

theorem stepDisrupt_err {env : Env} {scen : Scenario} {res : DrillResult}
    {w : World} {res' : DrillResult} {w' : World}
    (h : stepDisrupt env scen res w = some (res', w')) :
    ∀ c, res'.disrupt = some c → c.exitCode ≠ 0 →
      disruptErr c.exitCode ∈ res'.errors := by
  unfold stepDisrupt at h
  split at h
  · exact Option.noConfusion h
  · next cc w2 heq =>
      cases h
      intro c hc hne
      split at hc <;> split <;> simp_all

theorem stepRecover_err {env : Env} {scen : Scenario} {res : DrillResult}
    {w : World} {res' : DrillResult} {w' : World}
    (h : stepRecover env scen res w = some (res', w'))
    (h0 : res.recover = none) :
    ∀ c, res'.recover = some c → c.exitCode ≠ 0 →
      recoverErr c.exitCode ∈ res'.errors := by
  unfold stepRecover at h
  split at h
  · split at h
    · exact Option.noConfusion h
    · next cc w2 heq =>
        cases h
        intro c hc hne
        split at hc <;> split <;> simp_all
  · cases h
    intro c hc hne
    rw [h0] at hc
    exact Option.noConfusion hc

theorem stepPost_err {env : Env} {scen : Scenario} {res : DrillResult}
    {w : World} {res' : DrillResult} {w' : World}
    (h : stepPost env scen res w = some (res', w'))
    (h0 : res.postSnapshot = none) :
    ∀ c, res'.postSnapshot = some c → c.exitCode ≠ 0 →
      postSnapErr c.exitCode ∈ res'.errors := by
  unfold stepPost at h
  split at h
  · split at h
    · split at h
      · exact Option.noConfusion h
      · next cc w2 heq =>
          cases h
          intro c hc hne
          split at hc <;> split <;> simp_all
    · cases h
      intro c hc hne
      rw [h0] at hc
      exact Option.noConfusion hc
  · cases h
    intro c hc hne
    rw [h0] at hc
    exact Option.noConfusion hc

/-- C4, amended. For every completed run, a non-zero exit of the
pre-snapshot, disrupt, recover, post-snapshot or RPO-verify command leaves
its human-readable error string in the result's error list (the run having
proceeded to completion regardless). Factor-log commands never stop the run
either, but — contrary to the claim as stated — record no error string. -/
theorem c4_amended {env : Env} {scen : Scenario} {fuel : Nat}
    {res : DrillResult} (h : completedOf (Run env scen fuel) = some res) :
    (∀ c, res.preSnapshot = some c → c.exitCode ≠ 0 →
      preSnapErr c.exitCode ∈ res.errors) ∧
    (∀ c, res.disrupt = some c → c.exitCode ≠ 0 →
      disruptErr c.exitCode ∈ res.errors) ∧
    (∀ c, res.recover = some c → c.exitCode ≠ 0 →
      recoverErr c.exitCode ∈ res.errors) ∧
    (∀ c, res.postSnapshot = some c → c.exitCode ≠ 0 →
      postSnapErr c.exitCode ∈ res.errors) ∧
    (∀ c, res.rpoVerify = some c → c.exitCode ≠ 0 →
      rpoVerifyErr c.exitCode ∈ res.errors) := by
  obtain ⟨rtoT, rpoT, delay, res1, w1, res2, w2, res3, w3, res4, w4, b, res5,
    w5, res6, w6, res7, w7, res8, w8, hok1, hok2, hok3, hpre, hdis, hnoc,
    hdown, hrec, hloop, hpost, hrpo, hfact, hres⟩ := Run_completed_pipeline h
  unfold waitForHealthCheck at hloop
  obtain ⟨q1d, q1rc, q1po, q1rv, -, -, -, -, -, -, -, -, -, ⟨l1, he1⟩, -, -⟩ :=
    stepPre_pres hpre
  obtain ⟨q2p, q2rc, q2po, q2rv, -, -, -, -, -, -, -, -, -, ⟨l2, he2⟩, -, -⟩ :=
    stepDisrupt_pres hdis
  obtain ⟨-, -, -, -, -, -, q3p, q3d, q3rc, q3po, q3rv, -, -, -, -, -, -, -,
    he3⟩ := stepDown_spec hdown
  obtain ⟨q4p, q4d, q4po, q4rv, -, -, -, -, -, -, -, -, -, ⟨l4, he4⟩, -, -⟩ :=
    stepRecover_pres hrec
  obtain ⟨-, -, q5p, q5d, q5rc, q5po, q5rv, -, -, -, he5, -, -, -, -⟩ :=
    waitLoop_pres hloop
  obtain ⟨q6p, q6d, q6rc, q6rv, -, -, -, -, -, -, -, -, -, ⟨l6, he6⟩, -, -⟩ :=
    stepPost_pres hpost
  obtain ⟨q7p, q7d, q7rc, q7po, -, -, -, -, -, -, -, -, ⟨l7, he7⟩, hvt, hvf⟩ :=
    stepRPO_spec hrpo
  obtain ⟨q8p, q8d, q8rc, q8po, q8rv, -, -, -, -, -, -, -, -, q8err⟩ :=
    stepFactors_pres hfact
  have f := finalize_spec env res8 w8
  have fp : res.preSnapshot = res8.preSnapshot := by rw [hres, f.1]
  have fd : res.disrupt = res8.disrupt := by rw [hres, f.2.1]
  have frc : res.recover = res8.recover := by rw [hres, f.2.2.1]
  have fpo : res.postSnapshot = res8.postSnapshot := by rw [hres, f.2.2.2.1]
  have frv : res.rpoVerify = res8.rpoVerify := by rw [hres, f.2.2.2.2.1]
  have ferr : res.errors = res8.errors := by
    rw [hres, f.2.2.2.2.2.2.2.2.2.2.2.1]
  -- error-list membership is preserved from any intermediate stage on
  have m1 : ∀ {e : String}, e ∈ res1.errors → e ∈ res.errors := by
    intro e he
    rw [ferr, q8err, he7, he6, he5, he4, he3, he2]
    simp [he]
  have m4 : ∀ {e : String}, e ∈ res4.errors → e ∈ res.errors := by
    intro e he
    rw [ferr, q8err, he7, he6, he5]
    simp [he]
  have m7 : ∀ {e : String}, e ∈ res7.errors → e ∈ res.errors := by
    intro e he
    rw [ferr, q8err]
    exact he
  refine ⟨?_, ?_, ?_, ?_, ?_⟩
  · intro c hc hne
    have h1 : res1.preSnapshot = some c := by
      rw [← q2p, ← q3p, ← q4p, ← q5p, ← q6p, ← q7p, ← q8p, ← fp]
      exact hc
    exact m1 (stepPre_err hpre rfl c h1 hne)
  · intro c hc hne
    have h2 : res2.disrupt = some c := by
      rw [← q3d, ← q4d, ← q5d, ← q6d, ← q7d, ← q8d, ← fd]
      exact hc
    have h2e := stepDisrupt_err hdis c h2 hne
    rw [ferr, q8err, he7, he6, he5, he4, he3]
    simp [h2e]
  · intro c hc hne
    have h4 : res4.recover = some c := by
      rw [← q5rc, ← q6rc, ← q7rc, ← q8rc, ← frc]
      exact hc
    have h40 : res3.recover = none := by
      rw [q3rc, q2rc, q1rc]
      rfl
    exact m4 (stepRecover_err hrec h40 c h4 hne)
  · intro c hc hne
    have h6 : res6.postSnapshot = some c := by
      rw [← q7po, ← q8po, ← fpo]
      exact hc
    have h60 : res5.postSnapshot = none := by
      rw [q5po, q4po, q3po, q2po, q1po]
      rfl
    have h6e := stepPost_err hpost h60 c h6 hne
    rw [ferr, q8err, he7]
    simp [h6e]
  · intro c hc hne
    have h7 : res7.rpoVerify = some c := by
      rw [← q8rv, ← frv]
      exact hc
    rcases Bool.eq_false_or_eq_true (hasVerify scen) with hhv | hhv
    · obtain ⟨c2, hv7, -, herr7⟩ := hvt hhv
      rw [hv7] at h7
      injection h7 with hcc
      exact m7 (hcc ▸ herr7 (hcc ▸ hne))
    · obtain ⟨hv7, -, -⟩ := hvf hhv
      rw [hv7] at h7
      have : res6.rpoVerify = none := by
        rw [q6rv, q5rv, q4rv, q3rv, q2rv, q1rv]
        rfl
      rw [this] at h7
      exact Option.noConfusion h7

def failE (n : Int) : ExecContent := ⟨"", "", .exitError n, .noErr⟩

def scenC4w : Scenario :=
  { name := "c4", description := "", rtoTarget := .ok 100, rpoTarget := .ok 5,
    disruptCommand := "d", recoverCommand := "rc", healthCheckCommand := "h",
    postDisruptDelay := .ok 0, rpoCheck := some ⟨"ps", "qs", "vc"⟩,
    factors := none }

def envC4w : Env :=
  ⟨fun i => i + 1,
   [failE 3, failE 4, okE, failE 7, okE, failE 5, failE 6],
   false, fun _ => false⟩

def resC4w : DrillResult :=
  (completedOf (Run envC4w scenC4w 5)).getD (emptyResult scenC4w)

/-- Witness for C4: a run in which all five auxiliary kinds fail still
completes, with all five error strings recorded. -/
theorem c4_witness :
    preSnapErr 3 ∈ resC4w.errors ∧ disruptErr 4 ∈ resC4w.errors ∧
    recoverErr 7 ∈ resC4w.errors ∧ postSnapErr 5 ∈ resC4w.errors ∧
    rpoVerifyErr 6 ∈ resC4w.errors := by
  have h : completedOf (Run envC4w scenC4w 5) = some resC4w := rfl
  have hm := c4_amended h
  exact ⟨hm.1 _ rfl (by decide), hm.2.1 _ rfl (by decide),
    hm.2.2.1 _ rfl (by decide), hm.2.2.2.1 _ rfl (by decide),
    hm.2.2.2.2 _ rfl (by decide)⟩

def scenC4x : Scenario :=
  { name := "c4x", description := "", rtoTarget := .ok 100,
    rpoTarget := .ok 0, disruptCommand := "d", recoverCommand := "",
    healthCheckCommand := "h", postDisruptDelay := .ok 0, rpoCheck := none,
    factors := some ⟨["flog"]⟩ }

def envC4x : Env :=
  ⟨fun i => i + 1, [okE, okE, okE, failE 2], false, fun _ => false⟩

/-- C4, counterexample to the claim as stated. A factor-log command
exiting 2 appends no error string: the completed run's error list is empty
while its factor-log record carries exit code 2 — the claim demands a
human-readable error string for every one of the six kinds, including
factor logs. -/
theorem c4_counterexample :
    (completedOf (Run envC4x scenC4x 5)).map
      (fun r => (r.errors, r.factorLogs.map (fun c => c.exitCode)))
      = some ([], [2]) := by rfl

/-! ## Claim C9 — cancellation during the post-disrupt delay -/

theorem executeCommand_total {cmd : String} {env : Env} {w : World}
    (hw : w.execs ≠ []) :
    ∃ c w', executeCommand cmd env w = some (c, w') ∧
      w.execs.length = w'.execs.length + 1 := by
  cases hx : w.execs with
  | nil => exact absurd hx hw
  | cons ec rest =>
      refine ⟨mkCommandResult cmd ec (env.clock w.tick)
        (env.clock (w.tick + 1)) (env.clock (w.tick + 2)),
        { w with tick := w.tick + 3, execs := rest }, ?_, ?_⟩
      · unfold executeCommand
        rw [hx]
      · simp [hx]

theorem stepPre_total {env : Env} {scen : Scenario} {res : DrillResult}
    {w : World} (hw : w.execs ≠ []) :
    ∃ res' w', stepPre env scen res w = some (res', w') ∧
      w.execs.length ≤ w'.execs.length + 1 := by
  unfold stepPre
  split
  · split
    · obtain ⟨c, w', hex, hlen⟩ := executeCommand_total hw
      rw [hex]
      exact ⟨_, _, rfl, by omega⟩
    · exact ⟨_, _, rfl, by omega⟩
  · exact ⟨_, _, rfl, by omega⟩

theorem stepDisrupt_total {env : Env} {scen : Scenario} {res : DrillResult}
    {w : World} (hw : w.execs ≠ []) :
    ∃ res' w', stepDisrupt env scen res w = some (res', w') := by
  obtain ⟨c, w', hex, hlen⟩ := executeCommand_total hw
  unfold stepDisrupt
  rw [hex]
  exact ⟨_, _, rfl⟩

theorem stepPre_endTime {env : Env} {scen : Scenario} {res : DrillResult}
    {w : World} {res' : DrillResult} {w' : World}
    (h : stepPre env scen res w = some (res', w')) :
    res'.endTime = res.endTime := by
  unfold stepPre at h
  repeat' split at h
  all_goals first | exact Option.noConfusion h | (cases h; rfl)

theorem stepDisrupt_endTime {env : Env} {scen : Scenario} {res : DrillResult}
    {w : World} {res' : DrillResult} {w' : World}
    (h : stepDisrupt env scen res w = some (res', w')) :
    res'.endTime = res.endTime := by
  unfold stepDisrupt at h
  repeat' split at h
  all_goals first | exact Option.noConfusion h | (cases h; rfl)

theorem stepPre_set {env : Env} {scen : Scenario} {res : DrillResult}
    {w : World} {res' : DrillResult} {w' : World}
    (h : stepPre env scen res w = some (res', w')) :
    ∀ rpo, scen.rpoCheck = some rpo → rpo.preSnapshot ≠ "" →
      ∃ c, res'.preSnapshot = some c := by
  unfold stepPre at h
  split at h
  · next rpo2 hrc =>
    split at h
    · split at h
      · exact Option.noConfusion h
      · next cc w2 heq =>
          cases h
          intro rpo hrpo hne
          exact ⟨cc, by split <;> rfl⟩
    · next hemp =>
      intro rpo hrpo hne
      rw [hrc] at hrpo
      injection hrpo with he
      exact absurd (he ▸ hne) hemp
  · next hrc =>
    intro rpo hrpo hne
    rw [hrc] at hrpo
    exact Option.noConfusion hrpo

theorem stepDisrupt_set {env : Env} {scen : Scenario} {res : DrillResult}
    {w : World} {res' : DrillResult} {w' : World}
    (h : stepDisrupt env scen res w = some (res', w')) :
    ∃ c, res'.disrupt = some c := by
  unfold stepDisrupt at h
  split at h
  · exact Option.noConfusion h
  · next cc w2 heq =>
      cases h
      exact ⟨cc, by split <;> rfl⟩

/-- C9. When a positive post-disrupt delay is configured and the
cancellation context fires during the delay wait, `Run` returns early with
the cancellation error and the partially filled result: pre-snapshot (when
configured) and disrupt are recorded, and no later step has executed — no
health check, recovery, snapshot, RPO verification or factor log ran, and
no end timestamp was taken. -/
theorem c9_cancel {env : Env} {scen : Scenario} {fuel : Nat}
    {rtoT rpoT delay : Int}
    (h1 : scen.rtoTarget = .ok rtoT) (h2 : scen.rpoTarget = .ok rpoT)
    (h3 : scen.postDisruptDelay = .ok delay)
    (hpos : delay > 0) (hcan : env.cancelDelay = true)
    (hex : 2 ≤ env.execs.length) :
    ∃ res, Run env scen fuel = some (.cancelled res) ∧
      res.healthCheckAttempts = [] ∧ res.recover = none ∧
      res.postSnapshot = none ∧ res.rpoVerify = none ∧
      res.factorLogs = [] ∧ res.endTime = 0 ∧
      (∃ c, res.disrupt = some c) ∧
      (∀ rpo, scen.rpoCheck = some rpo → rpo.preSnapshot ≠ "" →
        ∃ c, res.preSnapshot = some c) := by
  have hw0 : (initWorld env).execs ≠ [] := by
    intro hnil
    have : env.execs.length = 0 := by
      rw [show env.execs = (initWorld env).execs from rfl, hnil]
      rfl
    omega
  obtain ⟨res1, w1, hpre, hlen1⟩ :=
    @stepPre_total env scen (initRes env scen rtoT rpoT delay)
      (initWorld env) hw0
  have hw1 : w1.execs ≠ [] := by
    intro hnil
    rw [hnil] at hlen1
    simp [initWorld] at hlen1
    omega
  obtain ⟨res2, w2, hdis⟩ := @stepDisrupt_total env scen res1 w1 hw1
  obtain ⟨-, -, -, q1rv, q1att, q1fl, -, -, -, -, -, -, -, -, -, -⟩ :=
    stepPre_pres hpre
  obtain ⟨-, q2rc, q2po, q2rv, q2att, q2fl, -, -, -, -, -, -, -, -, -, -⟩ :=
    stepDisrupt_pres hdis
  obtain ⟨-, q1rc, q1po, -, -, -, -, -, -, -, -, -, -, -, -, -⟩ :=
    stepPre_pres hpre
  refine ⟨res2, ?_, ?_, ?_, ?_, ?_, ?_, ?_, ?_, ?_⟩
  · unfold Run
    rw [h1, h2, h3]
    show runSteps env scen fuel rtoT rpoT delay
      (initRes env scen rtoT rpoT delay) (initWorld env)
      = some (RunOutput.cancelled res2)
    unfold runSteps
    simp only [hpre, hdis]
    rw [if_pos ⟨hpos, hcan⟩]
  · rw [q2att, q1att]; rfl
  · rw [q2rc, q1rc]; rfl
  · rw [q2po, q1po]; rfl
  · rw [q2rv, q1rv]; rfl
  · rw [q2fl, q1fl]; rfl
  · rw [stepDisrupt_endTime hdis, stepPre_endTime hpre]; rfl
  · exact stepDisrupt_set hdis
  · intro rpo hrpo hne
    obtain ⟨c, hc⟩ := stepPre_set hpre rpo hrpo hne
    obtain ⟨q2p, -⟩ := stepDisrupt_pres hdis
    exact ⟨c, q2p.trans hc⟩

def scenC9 : Scenario :=
  { name := "c9", description := "", rtoTarget := .ok 100, rpoTarget := .ok 0,
    disruptCommand := "d", recoverCommand := "rc", healthCheckCommand := "h",
    postDisruptDelay := .ok 10, rpoCheck := none, factors := none }

def envC9 : Env := ⟨fun i => i + 1, [okE, okE], true, fun _ => false⟩

/-- Witness for C9 at a concrete cancelled run. -/
theorem c9_witness :
    ∃ res, Run envC9 scenC9 5 = some (.cancelled res) ∧
      res.healthCheckAttempts = [] ∧ res.recover = none ∧
      res.postSnapshot = none ∧ res.rpoVerify = none ∧
      res.factorLogs = [] ∧ res.endTime = 0 ∧
      (∃ c, res.disrupt = some c) ∧
      (∀ rpo, scenC9.rpoCheck = some rpo → rpo.preSnapshot ≠ "" →
        ∃ c, res.preSnapshot = some c) :=
  c9_cancel rfl rfl rfl (by decide) rfl (by decide)

/-! ## Claim C2 — succeeding down-detection probe -/

/-- The loop goes on to another iteration only after a failing attempt. -/
theorem waitStep_next_fail {env : Env} {cmd : String} {target : Int}
    {rtaStarted : Bool} {res : DrillResult} {w : World}
    {rs2 : Bool} {res2 : DrillResult} {w2 : World}
    (hstep : waitStep env cmd target rtaStarted res w = .next rs2 res2 w2) :
    ∃ a w1, executeCommand cmd env w = some (a, w1) ∧ a.exitCode ≠ 0 ∧
      res2.healthCheckAttempts = res.healthCheckAttempts ++ [a] := by
  unfold waitStep at hstep
  cases hex : executeCommand cmd env w with
  | none => rw [hex] at hstep; exact StepOut.noConfusion hstep
  | some p =>
    obtain ⟨a, w1⟩ := p
    rw [hex] at hstep
    rcases Bool.eq_false_or_eq_true rtaStarted with hrs | hrs <;>
      simp only [hrs, drawNow, Bool.not_true, Bool.not_false, ite_true,
        ite_false, if_true, if_false, Bool.false_eq_true] at hstep <;>
      (split at hstep
       · exact StepOut.noConfusion hstep
       · next hne0 =>
           split at hstep
           · exact StepOut.noConfusion hstep
           · split at hstep
             · exact StepOut.noConfusion hstep
             · cases hstep
               exact ⟨a, _, rfl, hne0, by first | rfl | (split <;> rfl)⟩)

/-- A succeeding attempt while RTA never started ends the loop with a pass
and touches no timing field. -/
theorem waitStep_done_noRta {env : Env} {cmd : String} {target : Int}
    {res : DrillResult} {w : World} {b : Bool} {res2 : DrillResult}
    {w2 : World} {a : CommandResult} {w1 : World}
    (hex : executeCommand cmd env w = some (a, w1)) (ha : a.exitCode = 0)
    (hstep : waitStep env cmd target false res w = .done b res2 w2) :
    b = true ∧ res2.rtoStartTime = res.rtoStartTime ∧ res2.rta = res.rta ∧
      res2.rtoEndTime = res.rtoEndTime ∧ res2.rtoPassed = true := by
  unfold waitStep at hstep
  rw [hex] at hstep
  simp only [ha, drawNow, Bool.not_false, ite_true, ite_false, if_true,
    if_false, Bool.false_eq_true, reduceIte] at hstep
  cases hstep
  exact ⟨rfl, rfl, rfl, rfl, rfl⟩

/-- C2, amended. If the step-4 down-detection probe (the first recorded
health-check attempt) exits 0, RTA-start is still unset when the polling
loop is entered; if the first polling-loop attempt (the second recorded
attempt) then also exits 0, the run completes with RTA unset and RTO-passed
true. Contrary to the claim as stated, this is not independent of later
health-check attempts: a failing loop attempt re-arms RTA through the
loop's safety-net transition. -/
theorem c2_amended {env : Env} {scen : Scenario} {fuel : Nat}
    {res : DrillResult} {c0 c1 : CommandResult}
    (h : completedOf (Run env scen fuel) = some res)
    (h0 : res.healthCheckAttempts.head? = some c0) (h0e : c0.exitCode = 0)
    (h1 : res.healthCheckAttempts[1]? = some c1) (h1e : c1.exitCode = 0) :
    res.rtoStartTime = 0 ∧ res.rta = 0 ∧ res.rtoPassed = true := by
  obtain ⟨rtoT, rpoT, delay, res1, w1, res2, w2, res3, w3, res4, w4, b, res5,
    w5, res6, w6, res7, w7, res8, w8, hok1, hok2, hok3, hpre, hdis, hnoc,
    hdown, hrec, hloop, hpost, hrpo, hfact, hres⟩ := Run_completed_pipeline h
  unfold waitForHealthCheck at hloop
  obtain ⟨-, -, -, -, q1att, -, q1st, q1end, q1rta, -, -, -, -, -, -, -⟩ :=
    stepPre_pres hpre
  obtain ⟨-, -, -, -, q2att, -, q2st, q2end, q2rta, -, -, -, -, -, -, -⟩ :=
    stepDisrupt_pres hdis
  obtain ⟨cD, wD, hexD, hwD, q3att, q3st, -, -, -, -, -, -, q3end, q3rta, -,
    -, -, -, -⟩ := stepDown_spec hdown
  obtain ⟨-, -, -, -, q4att, -, q4st, q4end, q4rta, -, -, -, -, -, -, -⟩ :=
    stepRecover_pres hrec
  have q6att := (stepPost_pres hpost).2.2.2.2.1
  have q6st := (stepPost_pres hpost).2.2.2.2.2.2.1
  have q6end := (stepPost_pres hpost).2.2.2.2.2.2.2.1
  have q6rta := (stepPost_pres hpost).2.2.2.2.2.2.2.2.1
  have q6rp := (stepPost_pres hpost).2.2.2.2.2.2.2.2.2.2.1
  have q7att := (stepRPO_spec hrpo).2.2.2.2.1
  have q7st := (stepRPO_spec hrpo).2.2.2.2.2.2.1
  have q7end := (stepRPO_spec hrpo).2.2.2.2.2.2.2.1
  have q7rta := (stepRPO_spec hrpo).2.2.2.2.2.2.2.2.1
  have q7rp := (stepRPO_spec hrpo).2.2.2.2.2.2.2.2.2.2.1
  obtain ⟨-, -, -, -, -, q8att, q8st, q8end, q8rta, -, q8rp, -, -, -⟩ :=
    stepFactors_pres hfact
  have f := finalize_spec env res8 w8
  -- the first recorded attempt is the down-detection probe
  have hatt4 : res4.healthCheckAttempts = [cD] := by
    rw [q4att, q3att, q2att, q1att]
    rfl
  -- RTA-start entering the loop
  have hst2 : res2.rtoStartTime = 0 := by
    rw [q2st, q1st]
    rfl
  have hrta4 : res4.rta = 0 := by
    rw [q4rta, q3rta, q2rta, q1rta]
    rfl
  have hend4 : res4.rtoEndTime = 0 := by
    rw [q4end, q3end, q2end, q1end]
    rfl
  -- the first loop iteration
  cases fuel with
  | zero => exact Option.noConfusion hloop
  | succ n =>
    rw [waitLoop] at hloop
    cases hstep : waitStep env scen.healthCheckCommand rtoT
        (decide (res4.rtoStartTime ≠ 0)) res4 w4 with
    | stuck => rw [hstep] at hloop; exact Option.noConfusion hloop
    | next rs2 resN wN =>
        rw [hstep] at hloop
        obtain ⟨a, wa, hexa, hane, hattN⟩ := waitStep_next_fail hstep
        obtain ⟨⟨l, hl, -⟩, -⟩ := waitLoop_pres hloop
        have : res.healthCheckAttempts = [cD] ++ [a] ++ l := by
          rw [hres, f.2.2.2.2.2.1, q8att, q7att, q6att, hl, hattN, hatt4]
        rw [this] at h1
        have hc1 : c1 = a := by
          have : ([cD] ++ [a] ++ l)[1]? = some a := by
            simp
          rw [this] at h1
          exact (Option.some.injEq _ _ ▸ h1).symm
        exact absurd (hc1 ▸ h1e) hane
    | done b2 resD wD2 =>
        rw [hstep] at hloop
        cases hloop
        -- identify the probe and the first loop attempt
        obtain ⟨⟨a, wa, hexa, hattD, -⟩, -⟩ := waitStep_done_pres hstep
        have hattRes : res.healthCheckAttempts = [cD] ++ [a] := by
          rw [hres, f.2.2.2.2.2.1, q8att, q7att, q6att, hattD, hatt4]
        have hcD : c0 = cD := by
          rw [hattRes] at h0
          exact (Option.some.injEq _ _ ▸ h0).symm
        have hst3 : res3.rtoStartTime = 0 := by
          rw [q3st, hst2]
          have : cD.exitCode = 0 := hcD ▸ h0e
          simp [this]
        have hst4 : res4.rtoStartTime = 0 := by rw [q4st, hst3]
        have hc1 : c1 = a := by
          rw [hattRes] at h1
          have : ([cD] ++ [a])[1]? = some a := rfl
          rw [this] at h1
          exact (Option.some.injEq _ _ ▸ h1).symm
        have hstep2 : waitStep env scen.healthCheckCommand rtoT false res4 w4
            = .done b res5 w5 := by
          rw [← hstep, hst4]
          rfl
        obtain ⟨hb, hsD, hrD, heD, hpD⟩ :=
          waitStep_done_noRta hexa (hc1 ▸ h1e) hstep2
        -- the finalize default branch with RTA unset
        have hst8 : res8.rtoStartTime = 0 := by
          rw [q8st, q7st, q6st, hsD, hst4]
        have hend8 : res8.rtoEndTime = 0 := by
          rw [q8end, q7end, q6end, heD, hend4]
        have hrta8 : res8.rta = 0 := by
          rw [q8rta, q7rta, q6rta, hrD, hrta4]
        have hrp8 : res8.rtoPassed = true := by
          rw [q8rp, q7rp, q6rp, hpD]
        obtain ⟨frta, frp, fst⟩ := f.2.2.2.2.2.2.2.2.2.2.2.2.2.1 hend8 hst8
        refine ⟨?_, ?_, ?_⟩
        · rw [hres]; exact fst
        · rw [hres, frta]; exact hrta8
        · rw [hres, frp]; exact hrp8

/-- Witness for C2: the down-detection probe and the first loop attempt
both succeed, so the run completes with RTA unset and a pass. -/
theorem c2_witness :
    resC5.rtoStartTime = 0 ∧ resC5.rta = 0 ∧ resC5.rtoPassed = true := by
  have h : completedOf (Run envC5 scenC5 5) = some resC5 := rfl
  exact c2_amended h rfl (by decide) rfl (by decide)

def scenC2x : Scenario :=
  { name := "c2x", description := "", rtoTarget := .ok 1, rpoTarget := .ok 0,
    disruptCommand := "d", recoverCommand := "", healthCheckCommand := "h",
    postDisruptDelay := .ok 0, rpoCheck := none, factors := none }

def envC2x : Env :=
  ⟨fun i => 10 * i + 1, [okE, okE, failE 1], false, fun _ => false⟩

/-- C2, counterexample to the claim as stated. The down-detection probe
exits 0, yet a later failing loop attempt re-arms RTA (safety-net
transition) and the deadline-exceeded branch fails the run: the completed
result has RTA-start 71 (not unset) and RTO-passed false (not true). -/
theorem c2_counterexample :
    (completedOf (Run envC2x scenC2x 5)).map
      (fun r => (r.healthCheckAttempts.map (fun c => c.exitCode),
                 r.rtoStartTime, r.rtoPassed))
      = some ([0, 1], 71, false) := by rfl

/-! ## Claim C1 — RTA arithmetic and the RTO verdict -/

/-- C1, amended. For every completed run (with a clock that never reads
the zero time): either RTA is unset (RTA-start zero and RTA zero), or
RTA-start is set, RTO-passed holds exactly when RTA ≤ RTO-target, and
RTA = RTA-end − RTA-start — except when the polling loop ended by
cancellation, where RTA = t − RTA-start for the clock reading t taken
immediately before the reading recorded as RTA-end (the code reads the
clock twice there: `time.Since` then `time.Now`). -/
theorem c1_amended {env : Env} {scen : Scenario} {fuel : Nat}
    {res : DrillResult} (hpos : Env.Pos env)
    (h : completedOf (Run env scen fuel) = some res) :
    (res.rtoStartTime = 0 ∧ res.rta = 0) ∨
    (res.rtoStartTime ≠ 0 ∧
      (res.rtoPassed = true ↔ res.rta ≤ res.rtoTarget) ∧
      (res.rta = (res.rtoEndTime : Int) - (res.rtoStartTime : Int) ∨
       ∃ i, res.rta = (env.clock i : Int) - (res.rtoStartTime : Int) ∧
            res.rtoEndTime = env.clock (i + 1))) := by
  obtain ⟨rtoT, rpoT, delay, res1, w1, res2, w2, res3, w3, res4, w4, b, res5,
    w5, res6, w6, res7, w7, res8, w8, hok1, hok2, hok3, hpre, hdis, hnoc,
    hdown, hrec, hloop, hpost, hrpo, hfact, hres⟩ := Run_completed_pipeline h
  unfold waitForHealthCheck at hloop
  obtain ⟨-, -, -, -, -, -, q1st, q1end, q1rta, q1tg, -, -, -, -, -, -⟩ :=
    stepPre_pres hpre
  obtain ⟨-, -, -, -, -, -, q2st, q2end, q2rta, q2tg, -, -, -, -, -, -⟩ :=
    stepDisrupt_pres hdis
  obtain ⟨cD, wD, hexD, hwD, -, q3st, -, -, -, -, -, -, q3end, q3rta, q3tg,
    -, -, -, -⟩ := stepDown_spec hdown
  obtain ⟨-, -, -, -, -, -, q4st, q4end, q4rta, q4tg, -, -, -, -, -, -⟩ :=
    stepRecover_pres hrec
  have q6st := (stepPost_pres hpost).2.2.2.2.2.2.1
  have q6end := (stepPost_pres hpost).2.2.2.2.2.2.2.1
  have q6rta := (stepPost_pres hpost).2.2.2.2.2.2.2.2.1
  have q6tg := (stepPost_pres hpost).2.2.2.2.2.2.2.2.2.1
  have q6rp := (stepPost_pres hpost).2.2.2.2.2.2.2.2.2.2.1
  have q7st := (stepRPO_spec hrpo).2.2.2.2.2.2.1
  have q7end := (stepRPO_spec hrpo).2.2.2.2.2.2.2.1
  have q7rta := (stepRPO_spec hrpo).2.2.2.2.2.2.2.2.1
  have q7tg := (stepRPO_spec hrpo).2.2.2.2.2.2.2.2.2.1
  have q7rp := (stepRPO_spec hrpo).2.2.2.2.2.2.2.2.2.2.1
  obtain ⟨-, -, -, -, -, -, q8st, q8end, q8rta, q8tg, q8rp, -, -, -⟩ :=
    stepFactors_pres hfact
  have f := finalize_spec env res8 w8
  have ftg : (finalize env res8 w8).1.rtoTarget = res8.rtoTarget :=
    f.2.2.2.2.2.2.2.2.1
  have fst : (finalize env res8 w8).1.rtoStartTime = res8.rtoStartTime :=
    f.2.2.2.2.2.2.2.1
  -- verdict invariant at the loop exit
  have hrta4 : res4.rta = 0 := by
    rw [q4rta, q3rta, q2rta, q1rta]
    rfl
  have hend4 : res4.rtoEndTime = 0 := by
    rw [q4end, q3end, q2end, q1end]
    rfl
  have v5 : VerdictInv env rtoT res5 :=
    waitLoop_verdict hpos rfl hrta4 hend4 hloop
  have v8 : VerdictInv env rtoT res8 := by
    unfold VerdictInv at v5 ⊢
    rw [q8st, q7st, q6st, q8end, q7end, q6end, q8rta, q7rta, q6rta, q8rp,
      q7rp, q6rp]
    exact v5
  -- the RTO target carried in the result
  have htg8 : res8.rtoTarget = rtoT := by
    rw [q8tg, q7tg, q6tg]
    have := (waitLoop_pres hloop).2.2.2.2.2.2.2.2.2.2.2.1
    rw [this, q4tg, q3tg, q2tg, q1tg]
    rfl
  rcases v8 with ⟨h0, hend0, hrta0, -⟩ | ⟨hne, hend, hiff, hshape⟩
  · left
    obtain ⟨frta, -, fst0⟩ := f.2.2.2.2.2.2.2.2.2.2.2.2.2.1 hend0 h0
    exact ⟨hres ▸ fst0, by rw [hres, frta, hrta0]⟩
  · right
    obtain ⟨fend, frta, frp⟩ := f.2.2.2.2.2.2.2.2.2.2.2.2.1 hend
    refine ⟨by rw [hres, fst]; exact hne, ?_, ?_⟩
    · rw [hres, frp, frta, ftg, htg8]
      exact hiff
    · rcases hshape with hs | ⟨i, hi1, hi2⟩
      · left
        rw [hres, frta, fend, fst]
        exact hs
      · right
        exact ⟨i, by rw [hres, frta, fst]; exact hi1,
          by rw [hres, fend]; exact hi2⟩

def resC2x : DrillResult :=
  (completedOf (Run envC2x scenC2x 5)).getD (emptyResult scenC2x)

/-- Witness for C1 at a deadline-exceeded run: RTA-start is set, RTA equals
RTA-end − RTA-start, and the verdict matches RTA ≤ target. -/
theorem c1_witness :
    (resC2x.rtoStartTime = 0 ∧ resC2x.rta = 0) ∨
    (resC2x.rtoStartTime ≠ 0 ∧
      (resC2x.rtoPassed = true ↔ resC2x.rta ≤ resC2x.rtoTarget) ∧
      (resC2x.rta = (resC2x.rtoEndTime : Int) - (resC2x.rtoStartTime : Int) ∨
       ∃ i, resC2x.rta = (envC2x.clock i : Int) - (resC2x.rtoStartTime : Int) ∧
            resC2x.rtoEndTime = envC2x.clock (i + 1))) :=
  c1_amended (fun i => Nat.succ_pos _)
    (show completedOf (Run envC2x scenC2x 5) = some resC2x from rfl)

def scenA : Scenario :=
  { name := "a", description := "", rtoTarget := .ok 100, rpoTarget := .ok 0,
    disruptCommand := "d", recoverCommand := "", healthCheckCommand := "h",
    postDisruptDelay := .ok 0, rpoCheck := none, factors := none }

/-- A run whose polling loop is cancelled between attempts while RTA runs:
clock readings are strictly increasing, so the two clock reads of the
cancellation branch differ. -/
def envA : Env :=
  { clock := fun i => i + 1, execs := [okE, failE 1, failE 1],
    cancelDelay := false, cancels := fun _ => true }

/-- C1, counterexample to the claim as stated. A completed run whose
loop was cancelled between attempts has RTA = 7 but RTA-end − RTA-start =
13 − 5 = 8: `result.RTA = time.Since(start)` and `result.RTOEndTime =
time.Now()` are two distinct clock reads (runner.go lines 306–307), so
RTA = RTA-end − RTA-start fails. -/
theorem c1_counterexample :
    (completedOf (Run envA scenA 5)).map
      (fun r => (r.rta, r.rtoStartTime, r.rtoEndTime)) = some (7, 5, 13) ∧
    (7 : Int) ≠ (13 : Int) - (5 : Int) := by
  constructor
  · rfl
  · decide

/-! ## Claim C3 — cancellation between attempts -/

/-- C3, amended. When the cancellation context fires at the
between-attempt sleep while RTA is running, the loop terminates
immediately; the finalization differs from the deadline-exceeded branch:
RTA = t − RTA-start for the clock reading t taken right after the sleep,
RTA-end is the NEXT clock reading (not the same one), and RTO-passed is
re-derived as RTA ≤ RTO-target (not unconditionally false). -/
theorem c3_amended {env : Env} {cmd : String} {target : Int}
    {res : DrillResult} {w : World} {a : CommandResult} {w1 : World}
    (hex : executeCommand cmd env w = some (a, w1))
    (hfail : a.exitCode ≠ 0)
    (hwithin : ¬((env.clock w1.tick : Int) >
      (res.rtoStartTime : Int) + target))
    (hcancel : env.cancels w1.sleeps = true) :
    ∃ res' w', waitStep env cmd target true res w = .done false res' w' ∧
      res'.rta = (env.clock (w1.tick + 1) : Int) - (res.rtoStartTime : Int) ∧
      res'.rtoEndTime = env.clock (w1.tick + 2) ∧
      res'.rtoPassed = decide (res'.rta ≤ target) ∧
      res'.rtoStartTime = res.rtoStartTime ∧
      res'.healthCheckAttempts = res.healthCheckAttempts ++ [a] := by
  unfold waitStep
  rw [hex]
  simp only [drawNow, Bool.not_true, Bool.false_eq_true, ite_true, ite_false,
    if_true, if_false, if_neg hfail, hcancel]
  rw [if_neg hwithin]
  exact ⟨_, _, rfl, rfl, rfl, rfl, rfl, rfl⟩

def resC3w : DrillResult := { emptyResult scenA with rtoStartTime := 5 }

def envC3w : Env :=
  ⟨fun i => i + 1, [failE 1], false, fun _ => true⟩

/-- Witness for C3 at a concrete cancelled iteration: the verdict is
re-derived (here RTA = 5 − 5 = 0 ≤ 100, a pass, not false). -/
theorem c3_witness :
    ∃ res' w', waitStep envC3w "h" 100 true resC3w ⟨0, [failE 1], 0⟩
        = .done false res' w' ∧
      res'.rta = (envC3w.clock 4 : Int) - (resC3w.rtoStartTime : Int) ∧
      res'.rtoEndTime = envC3w.clock 5 ∧
      res'.rtoPassed = decide (res'.rta ≤ 100) ∧
      res'.rtoStartTime = resC3w.rtoStartTime ∧
      res'.healthCheckAttempts = resC3w.healthCheckAttempts
        ++ [mkCommandResult "h" (failE 1) (envC3w.clock 0) (envC3w.clock 1)
              (envC3w.clock 2)] := by
  have hm := @c3_amended envC3w "h" 100 resC3w ⟨0, [failE 1], 0⟩ _ _
    rfl (by decide) (by decide) rfl
  exact hm

/-- C3, counterexample to the claim as stated. A completed run whose
loop was cancelled between attempts while RTA was running (start 5, target
100, RTA 7 within target) ends with RTO-passed = true; the claim demands
RTO-passed = false for every such run. -/
theorem c3_counterexample :
    (completedOf (Run envA scenA 5)).map
      (fun r => (r.rtoPassed, r.rta, r.rtoTarget)) = some (true, 7, 100) ∧
    envA.cancels 0 = true := by
  constructor
  · rfl
  · rfl

/-! ## Claim C10 — the sleep point always has RTA running -/

/-- C10. Every failing attempt sets RTA-start before the
between-attempt wait, so cancellation inside the loop always finalizes RTA,
RTA-end and the verdict — regardless of whether RTA was running when the
iteration began, the no-verdict-change exit is unreachable, and the
finalized RTA-start is non-zero. -/
theorem c10_sleep_invariant {env : Env} {cmd : String} {target : Int}
    {rtaStarted : Bool} {res : DrillResult} {w : World} {a : CommandResult}
    {w1 : World}
    (hpos : Env.Pos env)
    (hlink : rtaStarted = true → res.rtoStartTime ≠ 0)
    (hex : executeCommand cmd env w = some (a, w1))
    (hfail : a.exitCode ≠ 0)
    (hwithin : ¬((env.clock w1.tick : Int) >
      ((if rtaStarted then res.rtoStartTime else a.timestamp) : Int)
        + target))
    (hcancel : env.cancels w1.sleeps = true) :
    ∃ res' w', waitStep env cmd target rtaStarted res w = .done false res' w' ∧
      res'.rtoStartTime ≠ 0 ∧
      res'.rta = (env.clock (w1.tick + 1) : Int) - (res'.rtoStartTime : Int) ∧
      res'.rtoEndTime = env.clock (w1.tick + 2) ∧
      res'.rtoPassed = decide (res'.rta ≤ target) := by
  obtain ⟨ec, rest, hw, hout⟩ := executeCommand_eq hex
  injection hout with ha hw1
  rcases Bool.eq_false_or_eq_true rtaStarted with hrs | hrs
  · subst hrs
    rw [if_pos rfl] at hwithin
    obtain ⟨r2, w2, hdone, hrta, hend, hpass, hstart, -⟩ :=
      c3_amended hex hfail hwithin hcancel
    refine ⟨r2, w2, hdone, ?_, ?_, hend, hpass⟩
    · rw [hstart]
      exact hlink rfl
    · rw [hstart]
      exact hrta
  · subst hrs
    rw [if_neg Bool.false_ne_true] at hwithin
    have hswap : waitStep env cmd target false res w
        = waitStep env cmd target true
            { res with rtoStartTime := a.timestamp } w := by
      unfold waitStep
      rw [hex]
      simp only [if_neg hfail]
      rfl
    obtain ⟨r2, w2, hdone, hrta, hend, hpass, hstart, -⟩ :=
      @c3_amended env cmd target { res with rtoStartTime := a.timestamp } w
        a w1 hex hfail hwithin hcancel
    refine ⟨r2, w2, hswap.trans hdone, ?_, ?_, hend, hpass⟩
    · rw [hstart]
      subst ha
      exact Nat.pos_iff_ne_zero.mp (hpos _)
    · rw [hstart]
      exact hrta

def resC10 : DrillResult := emptyResult scenA

/-- Witness for C10: cancellation at the sleep of an iteration entered with
RTA NOT yet running still finalizes the verdict (the failing attempt set
RTA-start first). -/
theorem c10_witness :
    ∃ res' w', waitStep envC3w "h" 100 false resC10 ⟨0, [failE 1], 0⟩
        = .done false res' w' ∧
      res'.rtoStartTime ≠ 0 ∧
      res'.rta = (envC3w.clock 4 : Int) - (res'.rtoStartTime : Int) ∧
      res'.rtoEndTime = envC3w.clock 5 ∧
      res'.rtoPassed = decide (res'.rta ≤ 100) := by
  have hm := @c10_sleep_invariant envC3w "h" 100 false resC10
    ⟨0, [failE 1], 0⟩ _ _ (fun i => Nat.succ_pos _)
    (fun hfalse => Bool.noConfusion hfalse) rfl (by decide) (by decide) rfl
  exact hm

/-! ## Claim C8 — append-only chronological history -/

/-- C8. The health-check attempt history is append-only: the step-4
probe appends exactly one attempt per execution, and every polling-loop
exit extends the entry history by exactly one attempt per raw outcome
consumed — so its final length is the number of health-check executions
(the step-4 probe plus one per polling iteration) — and for every completed
run under a monotone clock the recorded order is chronological. -/
theorem c8_history :
    (∀ (env : Env) (cmd : String) (res : DrillResult) (w : World)
       (res' : DrillResult) (w' : World),
      stepDown env cmd res w = some (res', w') →
      ∃ c w2, executeCommand cmd env w = some (c, w2) ∧
        res'.healthCheckAttempts = res.healthCheckAttempts ++ [c]) ∧
    (∀ (env : Env) (cmd : String) (target : Int) (fuel : Nat)
       (rtaStarted : Bool) (res : DrillResult) (w : World) (b : Bool)
       (res' : DrillResult) (w' : World),
      waitLoop env cmd target fuel rtaStarted res w = some (b, res', w') →
      ∃ l, res'.healthCheckAttempts = res.healthCheckAttempts ++ l ∧
        l.length + w'.execs.length = w.execs.length) ∧
    (∀ (env : Env) (scen : Scenario) (fuel : Nat) (res : DrillResult),
      Env.Mono env →
      completedOf (Run env scen fuel) = some res →
      chrono res.healthCheckAttempts) := by
  refine ⟨?_, ?_, ?_⟩
  · intro env cmd res w res' w' h
    obtain ⟨c, w2, hex, -, hatt, -⟩ := stepDown_spec h
    exact ⟨c, w2, hex, hatt⟩
  · intro env cmd target fuel rtaStarted res w b res' w' h
    obtain ⟨⟨l, hl, hlen⟩, -⟩ := waitLoop_pres h
    exact ⟨l, hl, by omega⟩
  · intro env scen fuel res hm h
    obtain ⟨rtoT, rpoT, delay, res1, w1, res2, w2, res3, w3, res4, w4, b,
      res5, w5, res6, w6, res7, w7, res8, w8, hok1, hok2, hok3, hpre, hdis,
      hnoc, hdown, hrec, hloop, hpost, hrpo, hfact, hres⟩ :=
      Run_completed_pipeline h
    unfold waitForHealthCheck at hloop
    obtain ⟨-, -, -, -, q1att, -, -, -, -, -, -, -, -, -, -, -⟩ :=
      stepPre_pres hpre
    obtain ⟨-, -, -, -, q2att, -, -, -, -, -, -, -, -, -, -, -⟩ :=
      stepDisrupt_pres hdis
    obtain ⟨cD, wD, hexD, hwD, q3att, -⟩ := stepDown_spec hdown
    obtain ⟨-, -, -, -, q4att, -, -, -, -, -, -, -, -, -, htick34, -⟩ :=
      stepRecover_pres hrec
    have q6att := (stepPost_pres hpost).2.2.2.2.1
    have q7att := (stepRPO_spec hrpo).2.2.2.2.1
    obtain ⟨-, -, -, -, -, q8att, -⟩ := stepFactors_pres hfact
    have fatt := (finalize_spec env res8 w8).2.2.2.2.2.1
    have hatt2 : res2.healthCheckAttempts = [] := by
      rw [q2att, q1att]
      rfl
    have ok2 : AttemptsOK env res2.healthCheckAttempts w2.tick := by
      rw [hatt2]
      exact ⟨List.Pairwise.nil, fun c hc => absurd hc (List.not_mem_nil c)⟩
    have ok3 : AttemptsOK env res3.healthCheckAttempts w3.tick := by
      rw [q3att, hwD]
      exact AttemptsOK_append hm ok2 hexD
    have ok4 : AttemptsOK env res4.healthCheckAttempts w4.tick := by
      rw [q4att]
      exact AttemptsOK_mono hm ok3 htick34
    have ok5 := waitLoop_chrono hm hloop ok4
    have : res.healthCheckAttempts = res5.healthCheckAttempts := by
      rw [hres, fatt, q8att, q7att, q6att]
    rw [this]
    exact ok5.1

def envL : Env := ⟨fun i => i + 1, [failE 1, okE], false, fun _ => false⟩

def wL : World := ⟨0, [failE 1, okE], 0⟩

def outL : Bool × DrillResult × World :=
  (waitLoop envL "h" 1000 5 true resC3w wL).getD (true, resC3w, wL)

/-- Witness for C8: a concrete two-iteration loop run (one failing, one
succeeding attempt) appends exactly two attempts, and a completed concrete
run has a chronologically ordered history. -/
theorem c8_witness :
    (∃ l, outL.2.1.healthCheckAttempts
        = resC3w.healthCheckAttempts ++ l ∧
      l.length + outL.2.2.execs.length = wL.execs.length) ∧
    chrono resC2x.healthCheckAttempts := by
  constructor
  · exact c8_history.2.1 envL "h" 1000 5 true resC3w wL outL.1 outL.2.1
      outL.2.2 rfl
  · exact c8_history.2.2 envC2x scenC2x 5 resC2x
      (fun i j hij => by simp [envC2x]; omega)
      (show completedOf (Run envC2x scenC2x 5) = some resC2x from rfl)

end DrillMeasure
